import Mathlib

/-!
Verification development for the STGI retained-mode UI/sprite compositing layer
(src/lib.rs legacy core, src/builder.rs, src/text.rs).

The Rust source is shallowly embedded: pure data structures become Lean
structures, stateful methods become explicit state-passing functions, and
fallible code (Rust panics: failed asserts, unwraps, out-of-bounds indexing,
checked-arithmetic overflow) returns Option, with none standing for a panic.
GPU objects (textures, GPU buffers, bind groups, pipelines, queue writes) are
external (wgpu) resources; their CPU-side shadows (staging/order vectors,
recorded sizes) are modelled exactly, the GPU handles themselves are dropped.
External libraries (etagere/guillotiere atlas allocators, fontdue fonts, the
image crate) are modelled at their interface boundary with simple executable
stand-ins, noted at each definition.
-/

set_option maxRecDepth 10000

namespace STGI

/-! ## Association-list model of ahash::HashMap

HashMap operations used by the source: get/get_mut (first matching key),
insert (replace value if key present, otherwise add), remove (delete the
entry, returning its value). Iteration order of a Rust HashMap is arbitrary;
the association-list order is one admissible order. -/

/-- Models HashMap::get: value of the first entry with the given key. -/
def alLookup {κ ν : Type} [DecidableEq κ] : List (κ × ν) → κ → Option ν
  | [], _ => none
  | (k, v) :: t, k' => if k' = k then some v else alLookup t k'

/-- Models HashMap::insert: replace the value of an existing key, else add the entry. -/
def alInsert {κ ν : Type} [DecidableEq κ] : List (κ × ν) → κ → ν → List (κ × ν)
  | [], k, v => [(k, v)]
  | (k', v') :: t, k, v => if k = k' then (k, v) :: t else (k', v') :: alInsert t k v

/-- Models HashMap::remove: delete the entry with the given key, returning its value. -/
def alRemove {κ ν : Type} [DecidableEq κ] : List (κ × ν) → κ → Option (ν × List (κ × ν))
  | [], _ => none
  | (k', v') :: t, k =>
    if k = k' then some (v', t)
    else (alRemove t k).map (fun p => (p.1, (k', v') :: p.2))

/-- Models a HashMap::get_mut followed by a write through the reference:
update the value of the given key in place; none when the key is absent
(an unwrap on the lookup would panic). -/
def alUpdate {κ ν : Type} [DecidableEq κ] : List (κ × ν) → κ → (ν → ν) → Option (List (κ × ν))
  | [], _, _ => none
  | (k', v') :: t, k, f =>
    if k = k' then some ((k', f v') :: t)
    else (alUpdate t k f).map (fun t' => (k', v') :: t')

/-! ## Vec helpers -/

/-- Models Vec::swap_remove(i): remove the element at index i, moving the last
element into its place; none (panic) when i is out of bounds. -/
def swapRemove {α : Type} (l : List α) (i : Nat) : Option (List α) :=
  match l.getLast? with
  | none => none
  | some lastElem => if i < l.length then some ((l.set i lastElem).dropLast) else none

/-- Models an indexed write `v[i] = a`: none (panic) when i is out of bounds. -/
def setAt {α : Type} (l : List α) (i : Nat) (a : α) : Option (List α) :=
  if i < l.length then some (l.set i a) else none

/-- Models `binary_search` followed by insert-at-Err-index on a sorted Vec:
insert the element at its ordered position when absent, return the list
unchanged when present (the source's Ok branch either does nothing
(area_mut) or is unreachable (add_area, handled at the call site)). -/
def dirtyInsert (h : Nat) : List Nat → List Nat
  | [] => [h]
  | x :: t => if h < x then h :: x :: t else if h = x then x :: t else x :: dirtyInsert h t

/-! ## Images and the shelf atlas allocator

The image crate's ImageBuffer is modelled as dimensions plus abstract pixel
data. The etagere AtlasAllocator and guillotiere SimpleAtlasAllocator are
external libraries; both are modelled at their interface by one executable
shelf packer: allocate places a rectangle on the current shelf or opens a new
shelf, grow enlarges the packing area in place keeping all prior placements
(guillotiere's grow does not move existing allocations). -/

structure Image where
  width : Nat
  height : Nat
  pixels : List Nat
  deriving DecidableEq, Repr

structure Rect where
  minX : Nat
  minY : Nat
  maxX : Nat
  maxY : Nat
  deriving DecidableEq, Repr

structure ShelfAllocator where
  size : Nat
  shelfX : Nat
  shelfY : Nat
  shelfH : Nat
  deriving DecidableEq, Repr

def ShelfAllocator.new (size : Nat) : ShelfAllocator :=
  { size := size, shelfX := 0, shelfY := 0, shelfH := 0 }

/-- Allocate a w×h rectangle: extend the current shelf if it fits, else open a
new shelf above it, else fail. -/
def ShelfAllocator.allocate (a : ShelfAllocator) (w h : Nat) : Option (Rect × ShelfAllocator) :=
  if a.shelfX + w ≤ a.size ∧ a.shelfY + max a.shelfH h ≤ a.size then
    some ({ minX := a.shelfX, minY := a.shelfY, maxX := a.shelfX + w, maxY := a.shelfY + h },
          { a with shelfX := a.shelfX + w, shelfH := max a.shelfH h })
  else
    let y2 := a.shelfY + a.shelfH
    if w ≤ a.size ∧ y2 + h ≤ a.size then
      some ({ minX := 0, minY := y2, maxX := w, maxY := y2 + h },
            { a with shelfX := w, shelfY := y2, shelfH := h })
    else none

/-- Models guillotiere's SimpleAtlasAllocator::grow: enlarge the packing area
in place; every existing placement (the shelf cursor state) is retained. -/
def ShelfAllocator.grow (a : ShelfAllocator) (newSize : Nat) : ShelfAllocator :=
  { a with size := newSize }

/-! ## Core data model (src/lib.rs) -/

/-- ZOrder: the four fixed draw layers, First drawn first. -/
inductive ZOrder where
  | first
  | second
  | third
  | fourth
  deriving DecidableEq, Repr

def ZOrder.toUsize : ZOrder → Nat
  | .first => 0
  | .second => 1
  | .third => 2
  | .fourth => 3

/-- UiArea: a positioned rectangle with a z-level and a sprite. The f32
coordinates of the source carry no claim-relevant arithmetic and are
embedded as exact integers. -/
structure UiArea (SID : Type) where
  xMin : Int
  xMax : Int
  yMin : Int
  yMax : Int
  z : ZOrder
  sprite : SID
  deriving DecidableEq, Repr

/-- InternalUiArea: the stored record — the public area plus bookkeeping
(z-level recorded at add_area, byte offset of the area's slot in its
instance buffer when resident). -/
structure InternalUiArea (SID : Type) where
  area : UiArea SID
  oldZ : ZOrder
  bufferOffset : Option Nat
  deriving DecidableEq, Repr

/-- StoredSprite: CPU-retained sprite record (dimensions, retained image for
atlas growing, atlas layer index, allocated rectangle). -/
structure StoredSprite where
  width : Nat
  height : Nat
  image : Image
  atlasIndex : Nat
  allocation : Rect
  deriving DecidableEq, Repr

/-- size_of::<Vertex>() = 2 f32 (pos) + 2 f32 (tex) + 1 u32 (id) = 20 bytes. -/
def vertexSize : Nat := 20

/-- Byte stride of one area's slot: four vertices. -/
def quadBytes : Nat := 4 * vertexSize

/-- Vertex: position (copied from the area rectangle), texture coordinate
(numerator over the atlas side length — the source divides these in f32),
and the owning area's handle id. -/
structure Vertex where
  posX : Int
  posY : Int
  texXNum : Nat
  texYNum : Nat
  texDen : Nat
  id : Nat
  deriving DecidableEq, Repr

/-- Quad: the [Vertex; 4] staging entry of one area. -/
structure Quad where
  v0 : Vertex
  v1 : Vertex
  v2 : Vertex
  v3 : Vertex
  deriving DecidableEq, Repr

/-- VertexBuffer: per (z-level, atlas-layer) instance buffer — recorded byte
size and capacity, CPU staging mirror, and the slot→handle order vector.
The GPU Buffer object itself is external. -/
structure VertexBuffer where
  size : Nat
  capacity : Nat
  staging : List Quad
  order : List Nat
  deriving DecidableEq, Repr

/-- Stgi: the legacy core state. GPU pipelines, bind groups, samplers,
textures, the GPU index buffer and its CPU copy, and the mpsc channel
endpoints are external or carry no claim-relevant state and are dropped;
the channel's received values are passed explicitly to updateCursor. -/
structure Stgi (SID : Type) where
  maxTextureSize : Nat
  atlases : List ShelfAllocator
  storedSprites : List (SID × StoredSprite)
  vertexBuffers : List (List (Option VertexBuffer))
  nextId : Nat
  uiAreas : List (List (Nat × InternalUiArea SID))
  dirtyAreas : List Nat
  areasToRemove : List Nat
  cursorMoved : Bool
  cursorPos : Nat × Nat
  cursorPickingResult : Option Nat
  deriving DecidableEq, Repr

/-- Stgi::new: empty atlases and sprites, four empty z-maps and buffer rows,
next_id = 1, empty dirty set and removal queue, no pick result. -/
def Stgi.init {SID : Type} (maxTextureSize : Nat) : Stgi SID :=
  { maxTextureSize := maxTextureSize
    atlases := []
    storedSprites := []
    vertexBuffers := [[], [], [], []]
    nextId := 1
    uiAreas := [[], [], [], []]
    dirtyAreas := []
    areasToRemove := []
    cursorMoved := false
    cursorPos := (0, 0)
    cursorPickingResult := none }

/-! ## Searching the four per-z-level area maps

The source iterates `for areas in &mut self.ui_areas` and stops at the first
map containing the handle. -/

/-- First map's entry for the handle, if any. -/
def findInMaps {SID : Type} [DecidableEq SID] :
    List (List (Nat × InternalUiArea SID)) → Nat → Option (InternalUiArea SID)
  | [], _ => none
  | row :: rest, h =>
    match alLookup row h with
    | some ia => some ia
    | none => findInMaps rest h

/-- Update the entry in the first map containing the handle; none if absent. -/
def updateInMaps {SID : Type} [DecidableEq SID] :
    List (List (Nat × InternalUiArea SID)) → Nat → (InternalUiArea SID → InternalUiArea SID) →
    Option (List (List (Nat × InternalUiArea SID)))
  | [], _, _ => none
  | row :: rest, h, f =>
    match alUpdate row h f with
    | some row' => some (row' :: rest)
    | none => (updateInMaps rest h f).map (fun rest' => row :: rest')

/-- Remove the entry from the first map containing the handle (HashMap::remove
inside the first-match loop); none if absent everywhere. -/
def removeFromMaps {SID : Type} [DecidableEq SID] :
    List (List (Nat × InternalUiArea SID)) → Nat →
    Option (InternalUiArea SID × List (List (Nat × InternalUiArea SID)))
  | [], _ => none
  | row :: rest, h =>
    match alRemove row h with
    | some (ia, row') => some (ia, row' :: rest)
    | none => (removeFromMaps rest h).map (fun p => (p.1, row :: p.2))

/-- Update an entry in the map at a fixed z index
(`self.ui_areas[zi].get_mut(&h).unwrap()`); none on a missing key or a bad
index (panic). -/
def updateAtMap {SID : Type} [DecidableEq SID]
    (maps : List (List (Nat × InternalUiArea SID))) (zi h : Nat)
    (f : InternalUiArea SID → InternalUiArea SID) :
    Option (List (List (Nat × InternalUiArea SID))) :=
  match maps[zi]? with
  | none => none
  | some row =>
    match alUpdate row h f with
    | none => none
    | some row' => setAt maps zi row'

/-! ## Area store operations (src/lib.rs lines 684-739, 916-929) -/

/-- add_area: issue the next handle, insert the record into the map of the
area's z-level with old_z = z and no buffer slot, and sorted-insert the
handle into the dirty set. none models the checked_add panic at u32::MAX
and the unreachable duplicate-dirty branch. -/
def addArea {SID : Type} [DecidableEq SID] (s : Stgi SID) (a : UiArea SID) :
    Option (Nat × Stgi SID) :=
  if s.nextId + 1 ≤ 4294967295 then
    match s.uiAreas[a.z.toUsize]? with
    | none => none
    | some row =>
      match setAt s.uiAreas a.z.toUsize
          (alInsert row s.nextId { area := a, oldZ := a.z, bufferOffset := none }) with
      | none => none
      | some maps' =>
        if s.nextId ∈ s.dirtyAreas then none
        else some (s.nextId,
          { s with uiAreas := maps', nextId := s.nextId + 1,
                   dirtyAreas := dirtyInsert s.nextId s.dirtyAreas })
  else none

/-- area_mut followed by the caller's write through the returned reference:
find the handle in the first containing map, mark it dirty, and apply the
caller's mutation f to the public area. Returns (false, s) unchanged when
the handle is absent (area_mut returns None). -/
def areaMutF {SID : Type} [DecidableEq SID] (s : Stgi SID) (h : Nat)
    (f : UiArea SID → UiArea SID) : Bool × Stgi SID :=
  match updateInMaps s.uiAreas h (fun ia => { ia with area := f ia.area }) with
  | some maps' =>
    (true, { s with uiAreas := maps', dirtyAreas := dirtyInsert h s.dirtyAreas })
  | none => (false, s)

/-- area: read-only lookup across the four maps, no side effect. -/
def area {SID : Type} [DecidableEq SID] (s : Stgi SID) (h : Nat) : Option (UiArea SID) :=
  (findInMaps s.uiAreas h).map (fun ia => ia.area)

/-- remove_area: push the handle onto the removal queue (unconditionally). -/
def removeArea {SID : Type} (s : Stgi SID) (h : Nat) : Stgi SID :=
  { s with areasToRemove := s.areasToRemove ++ [h] }

/-- clear: empty every z-map, drop every instance buffer (rows keep their
per-atlas length), clear the dirty set and the removal queue. next_id is
not reset. -/
def clear {SID : Type} (s : Stgi SID) : Stgi SID :=
  { s with uiAreas := s.uiAreas.map (fun _ => [])
           vertexBuffers := s.vertexBuffers.map (fun row => row.map (fun _ => none))
           dirtyAreas := []
           areasToRemove := [] }

/-- update_cursor: upload the buffered cursor position if moved (the GPU write
is external), then drain the pick-result channel non-blockingly keeping the
most recent value; 0 resolves to no hover, anything else to that handle, no
value leaves the previous result. received lists the channel's pending
values in arrival order. -/
def updateCursor {SID : Type} (s : Stgi SID) (received : List Nat) : Stgi SID :=
  let s1 := if s.cursorMoved then { s with cursorMoved := false } else s
  match received.foldl (fun _ v => some v) (none : Option Nat) with
  | some v =>
    if v ≠ 0 then { s1 with cursorPickingResult := some v }
    else { s1 with cursorPickingResult := none }
  | none => s1

/-! ## Per-frame synchronization (src/lib.rs update_dirty_areas, lines 959-1181)

The GPU-side queue.write_buffer calls mirror the staging updates and are
external; the CPU staging/order/size bookkeeping is embedded exactly. The
index-buffer regrowth (lines 1158-1178) touches only the CPU/GPU index
tables, which no claim mentions, and is omitted. -/

/-- Vertices of one area (lines 1057-1098): positions from the rectangle,
texture coordinates as numerators over the atlas side length, id = handle. -/
def mkVertices {SID : Type} (h : Nat) (a : UiArea SID) (sps : StoredSprite)
    (atlasSize : Nat) : Quad :=
  { v0 := { posX := a.xMin, posY := a.yMin,
            texXNum := sps.allocation.minX + 1, texYNum := sps.allocation.minY + 1,
            texDen := atlasSize, id := h }
    v1 := { posX := a.xMin, posY := a.yMax,
            texXNum := sps.allocation.minX + 1,
            texYNum := sps.allocation.minY + sps.height + 1,
            texDen := atlasSize, id := h }
    v2 := { posX := a.xMax, posY := a.yMin,
            texXNum := sps.allocation.minX + sps.width + 1,
            texYNum := sps.allocation.minY + 1,
            texDen := atlasSize, id := h }
    v3 := { posX := a.xMax, posY := a.yMax,
            texXNum := sps.allocation.minX + sps.width + 1,
            texYNum := sps.allocation.minY + sps.height + 1,
            texDen := atlasSize, id := h } }

/-- One queued removal (lines 961-1004): remove the handle from the first map
containing it; if it held a buffer slot, look the buffer up through the
area's current z-level and its sprite's atlas index, then swap-remove its
slot (patching the moved neighbour's recorded offset in the map of the
area's current z-level), pop if it was last, or drop the whole buffer if it
was the only occupant. none models the unwrap/indexing panics. -/
def removeOne {SID : Type} [DecidableEq SID] (s : Stgi SID) (h : Nat) : Option (Stgi SID) :=
  match removeFromMaps s.uiAreas h with
  | none => some s
  | some (ia, maps1) =>
    let s1 := { s with uiAreas := maps1 }
    match ia.bufferOffset with
    | none => some s1
    | some off =>
      match alLookup s1.storedSprites ia.area.sprite with
      | none => none
      | some sps =>
        let zi := ia.area.z.toUsize
        match s1.vertexBuffers[zi]? with
        | none => none
        | some vrow =>
          match vrow[sps.atlasIndex]? with
          | none => none
          | some none => none
          | some (some buffer) =>
            let index := off / quadBytes
            if 1 < buffer.order.length then
              if index ≠ buffer.order.length - 1 then
                match swapRemove buffer.order index, swapRemove buffer.staging index with
                | some order', some staging' =>
                  match staging'[index]? with
                  | none => none
                  | some _ =>
                    match order'[index]? with
                    | none => none
                    | some swapped =>
                      match updateAtMap maps1 zi swapped
                          (fun x => { x with bufferOffset := some off }) with
                      | none => none
                      | some maps2 =>
                        let buffer' := { buffer with
                                         order := order'
                                         staging := staging'
                                         size := buffer.size - quadBytes }
                        match setAt vrow sps.atlasIndex (some buffer') with
                        | none => none
                        | some vrow' =>
                          match setAt s1.vertexBuffers zi vrow' with
                          | none => none
                          | some vbs' =>
                            some { s1 with uiAreas := maps2, vertexBuffers := vbs' }
                | _, _ => none
              else
                let buffer' := { buffer with
                                 order := buffer.order.dropLast
                                 staging := buffer.staging.dropLast
                                 size := buffer.size - quadBytes }
                match setAt vrow sps.atlasIndex (some buffer') with
                | none => none
                | some vrow' =>
                  match setAt s1.vertexBuffers zi vrow' with
                  | none => none
                  | some vbs' => some { s1 with vertexBuffers := vbs' }
            else
              match setAt vrow sps.atlasIndex none with
              | none => none
              | some vrow' =>
                match setAt s1.vertexBuffers zi vrow' with
                | none => none
                | some vbs' => some { s1 with vertexBuffers := vbs' }

/-- Eviction of a dirty area whose z changed (lines 1022-1040): swap-remove
the slot at the area's recorded offset from the buffer of its old z-level,
then unconditionally read the handle now at that index to patch it — there
is no last-element or sole-occupant case here, so order'[index] is out of
bounds (panic, hence none) when the area was the last occupant. -/
def evictOldZ {SID : Type} [DecidableEq SID] (s : Stgi SID) (h : Nat)
    (ia : InternalUiArea SID) : Option (Stgi SID) :=
  match ia.bufferOffset with
  | none => some s
  | some off =>
    let oldZ := ia.oldZ.toUsize
    match alLookup s.storedSprites ia.area.sprite with
    | none => none
    | some sps =>
      match s.vertexBuffers[oldZ]? with
      | none => none
      | some vrow =>
        match vrow[sps.atlasIndex]? with
        | none => none
        | some none => none
        | some (some oldBuffer) =>
          let index := off / quadBytes
          match swapRemove oldBuffer.order index, swapRemove oldBuffer.staging index with
          | some order', some staging' =>
            match order'[index]? with
            | none => none
            | some swapped =>
              match updateInMaps s.uiAreas h (fun x => { x with bufferOffset := none }) with
              | none => none
              | some mapsA =>
                match updateAtMap mapsA oldZ swapped
                    (fun x => { x with bufferOffset := some off }) with
                | none => none
                | some mapsB =>
                  match staging'[index]? with
                  | none => none
                  | some _ =>
                    let buffer' := { oldBuffer with
                                     order := order'
                                     staging := staging'
                                     size := oldBuffer.size - quadBytes }
                    match setAt vrow sps.atlasIndex (some buffer') with
                    | none => none
                    | some vrow' =>
                      match setAt s.vertexBuffers oldZ vrow' with
                      | none => none
                      | some vbs' =>
                        some { s with uiAreas := mapsB, vertexBuffers := vbs' }
          | _, _ => none

/-- Writing a dirty area's vertices (lines 1055-1157): rebuild the quad from
the current rectangle and sprite allocation, then either overwrite the
existing slot in place, or append a new slot to the buffer of the area's
current z-level and sprite atlas (creating an empty buffer on first use,
doubling the recorded capacity on overflow) and record the new offset. -/
def writeAreaVertices {SID : Type} [DecidableEq SID] (s : Stgi SID) (h : Nat)
    (ia2 : InternalUiArea SID) : Option (Stgi SID) :=
  match alLookup s.storedSprites ia2.area.sprite with
  | none => none
  | some sps =>
    match s.atlases[sps.atlasIndex]? with
    | none => none
    | some atlas =>
      let vertices := mkVertices h ia2.area sps atlas.size
      let zi := ia2.area.z.toUsize
      match s.vertexBuffers[zi]? with
      | none => none
      | some vrow =>
        match ia2.bufferOffset with
        | some off =>
          match vrow[sps.atlasIndex]? with
          | none => none
          | some none => none
          | some (some buffer) =>
            let index := off / quadBytes
            match setAt buffer.staging index vertices with
            | none => none
            | some staging' =>
              match setAt vrow sps.atlasIndex (some { buffer with staging := staging' }) with
              | none => none
              | some vrow' =>
                match setAt s.vertexBuffers zi vrow' with
                | none => none
                | some vbs' => some { s with vertexBuffers := vbs' }
        | none =>
          match vrow[sps.atlasIndex]? with
          | none => none
          | some obuf =>
            let buffer := obuf.getD { size := 0, capacity := quadBytes, staging := [], order := [] }
            let appended := { buffer with
                              staging := buffer.staging ++ [vertices]
                              order := buffer.order ++ [h] }
            let buffer' :=
              if buffer.size + quadBytes > buffer.capacity then
                { appended with capacity := buffer.capacity * 2, size := buffer.size + quadBytes }
              else
                { appended with size := buffer.size + quadBytes }
            match updateInMaps s.uiAreas h
                (fun x => { x with bufferOffset := some buffer.size }) with
            | none => none
            | some maps' =>
              match setAt vrow sps.atlasIndex (some buffer') with
              | none => none
              | some vrow' =>
                match setAt s.vertexBuffers zi vrow' with
                | none => none
                | some vbs' => some { s with uiAreas := maps', vertexBuffers := vbs' }

/-- One dirty handle (lines 1007-1180): skip if the handle is gone; evict
from the old z's buffer when the z-level changed since the last sync; then
re-find the area and write its vertices. -/
def processDirty {SID : Type} [DecidableEq SID] (s : Stgi SID) (h : Nat) : Option (Stgi SID) :=
  match findInMaps s.uiAreas h with
  | none => some s
  | some ia =>
    match (if ia.oldZ ≠ ia.area.z then evictOldZ s h ia else some s) with
    | none => none
    | some s2 =>
      match findInMaps s2.uiAreas h with
      | none => some s2
      | some ia2 => writeAreaVertices s2 h ia2

/-- Fold of removeOne over the drained removal queue. -/
def Stgi.foldRemovals {SID : Type} [DecidableEq SID] (s : Stgi SID) : List Nat → Option (Stgi SID)
  | [] => some s
  | h :: t =>
    match removeOne s h with
    | none => none
    | some s' => s'.foldRemovals t

/-- Fold of processDirty over the drained dirty set. -/
def Stgi.foldDirty {SID : Type} [DecidableEq SID] (s : Stgi SID) : List Nat → Option (Stgi SID)
  | [] => some s
  | h :: t =>
    match processDirty s h with
    | none => none
    | some s' => s'.foldDirty t

/-- update_dirty_areas: drain and apply the removal queue, then drain and
process the dirty set, in that order. -/
def updateDirtyAreas {SID : Type} [DecidableEq SID] (s : Stgi SID) : Option (Stgi SID) :=
  match ({ s with areasToRemove := [] } : Stgi SID).foldRemovals s.areasToRemove with
  | none => none
  | some s1 =>
    ({ s1 with dirtyAreas := [] } : Stgi SID).foldDirty s1.dirtyAreas

/-- render's state-synchronizing prefix (lines 798-800): update_cursor runs
first (draining the pick channel), then update_dirty_areas (removals, then
dirty areas). Command recording afterwards is external. -/
def syncFrame {SID : Type} [DecidableEq SID] (s : Stgi SID) (received : List Nat) :
    Option (Stgi SID) :=
  updateDirtyAreas (updateCursor s received)

/-! ## Legacy sprite registration and atlas growth (src/lib.rs lines 497-682) -/

/-- Relocation loop of the grow branch (lines 599-634): every stored sprite
whose atlas_index equals the last atlas's index is re-allocated (padded by
2) in the rebuilt allocator and its record updated; the allocate().unwrap()
panic on a failed re-allocation is none. Texture uploads are external. -/
def relocateSprites {SID : Type} [DecidableEq SID] :
    List (SID × StoredSprite) → Nat → ShelfAllocator →
    Option (List (SID × StoredSprite) × ShelfAllocator)
  | [], _, alloc => some ([], alloc)
  | (sid, sps) :: t, lastIdx, alloc =>
    if sps.atlasIndex = lastIdx then
      match alloc.allocate (sps.width + 2) (sps.height + 2) with
      | none => none
      | some (rect, alloc') =>
        (relocateSprites t lastIdx alloc').map
          (fun p => ((sid, { sps with atlasIndex := lastIdx, allocation := rect }) :: p.1, p.2))
    else
      (relocateSprites t lastIdx alloc).map (fun p => ((sid, sps) :: p.1, p.2))

/-- New-atlas branch (lines 639-681): append a fresh 512-capped allocator (the
source takes min with the device limit twice) and extend every z-level's
buffer row with an empty slot. -/
def createNewAtlas {SID : Type} (s : Stgi SID) : Stgi SID :=
  let size := min (min 512 s.maxTextureSize) s.maxTextureSize
  { s with
    atlases := s.atlases ++ [ShelfAllocator.new size]
    vertexBuffers := s.vertexBuffers.map (fun row => row ++ [none]) }

/-- grow_last_atlas_or_create_new (lines 550-682): when the doubled side of
the last atlas stays within the device maximum, replace it with a freshly
built allocator of exactly double the side (rebuild from scratch) and
relocate every sprite stored in that layer; otherwise append a new layer. -/
def growLastAtlasOrCreateNew {SID : Type} [DecidableEq SID] (s : Stgi SID) :
    Option (Stgi SID) :=
  let maxSize := s.maxTextureSize
  let numAtlases := s.atlases.length
  match s.atlases.getLast? with
  | some last =>
    let newSize := min (last.size * 2) maxSize
    if newSize = last.size * 2 then
      match relocateSprites s.storedSprites (numAtlases - 1) (ShelfAllocator.new newSize) with
      | none => none
      | some (sprites', alloc') =>
        match setAt s.atlases (numAtlases - 1) alloc' with
        | none => none
        | some atlases' => some { s with atlases := atlases', storedSprites := sprites' }
    else some (createNewAtlas s)
  | none => some (createNewAtlas s)

/-- add_sprite (lines 499-548): reject zero-area images (panic), try to
allocate the padded frame in the last atlas and store the sprite record
(replacing any record under the same id without a duplicate check), else
grow the last atlas or create a new one and retry. The Rust recursion can
loop forever (a frame that never fits); fuel bounds it, none doubling as
both panic and divergence. -/
def addSprite {SID : Type} [DecidableEq SID] :
    Nat → Stgi SID → SID → Image → Option (Stgi SID)
  | 0, _, _, _ => none
  | fuel + 1, s, sid, img =>
    if img.width = 0 ∨ img.height = 0 then none
    else
      let paddedW := img.width + 2
      let paddedH := img.height + 2
      match s.atlases.getLast? with
      | some last =>
        match last.allocate paddedW paddedH with
        | some (rect, last') =>
          match setAt s.atlases (s.atlases.length - 1) last' with
          | none => none
          | some atlases' =>
            some { s with
                   atlases := atlases'
                   storedSprites := alInsert s.storedSprites sid
                     { width := img.width, height := img.height, image := img,
                       atlasIndex := s.atlases.length - 1, allocation := rect } }
        | none =>
          match growLastAtlasOrCreateNew s with
          | none => none
          | some s' => addSprite fuel s' sid img
      | none =>
        match growLastAtlasOrCreateNew s with
        | none => none
        | some s' => addSprite fuel s' sid img

/-! ## Builder registration (src/builder.rs) -/

/-- LoadedSprite (builder.rs lines 16-24). -/
inductive LoadedSprite where
  | animated (spriteSheet : Image) (spriteWidth : Nat)
  | inanimate (sprite : Image)
  deriving DecidableEq, Repr

/-- StgiBuilder's registration state (builder.rs lines 26-32). -/
structure StgiBuilder (S : Type) where
  presentIds : List S
  sprites : List (S × LoadedSprite)
  spriteAreas : List (Nat × S)
  deriving DecidableEq, Repr

/-- add_inanimate_sprite (builder.rs lines 49-64): assert the id is not
already present (duplicate registration panics), assert nonzero dimensions,
then record the sprite. none models the assert panics. -/
def addInanimateSprite {S : Type} [DecidableEq S] (b : StgiBuilder S) (spriteId : S)
    (sprite : Image) : Option (StgiBuilder S) :=
  if spriteId ∈ b.presentIds then none
  else if 0 < sprite.width ∧ 0 < sprite.height then
    some { b with
           sprites := alInsert b.sprites spriteId (LoadedSprite.inanimate sprite)
           spriteAreas := b.spriteAreas ++ [(sprite.width * sprite.height, spriteId)]
           presentIds := b.presentIds ++ [spriteId] }
  else none

/-- create_atlas's grow-the-last-allocator loop (builder.rs lines 634-661):
repeatedly set the side to min(side*2, device max, 65536); while that
strictly grows, grow the allocator in place (the old texture is copied into
the corner, placements retained) and retry the allocation; stop with
failure once the side cannot grow further. -/
def builderGrowAndAlloc (a : ShelfAllocator) (w h : Nat) (maxTextureSize : Nat) :
    Option (Rect × ShelfAllocator) :=
  let newSize := min (min (a.size * 2) maxTextureSize) 65536
  if _hgt : a.size < newSize then
    let a2 := a.grow newSize
    match a2.allocate w h with
    | some ra => some ra
    | none => builderGrowAndAlloc a2 w h maxTextureSize
  else none
termination_by min maxTextureSize 65536 + 1 - a.size
decreasing_by
  have h1 : min (min (a.size * 2) maxTextureSize) 65536 ≤ 65536 := Nat.min_le_right _ _
  have h2 : min (min (a.size * 2) maxTextureSize) 65536 ≤ min (a.size * 2) maxTextureSize :=
    Nat.min_le_left _ _
  have h3 : min (a.size * 2) maxTextureSize ≤ maxTextureSize := Nat.min_le_right _ _
  have h5 : min (min (a.size * 2) maxTextureSize) 65536 ≤ min maxTextureSize 65536 :=
    Nat.le_min.mpr ⟨Nat.le_trans h2 h3, h1⟩
  simp only [ShelfAllocator.grow]
  omega

/-! ## Glyph atlases and rasterization (src/text.rs) -/

/-- Glyph metrics as returned by fontdue's rasterize. -/
structure Metrics where
  width : Nat
  height : Nat
  deriving DecidableEq, Repr

/-- Models a fontdue Font at its interface: a lookup table from (character,
pixel size) to metrics; characters absent from the table rasterize with
zero metrics. The bitmap itself only feeds the external texture upload. -/
structure Font where
  glyphs : List ((Char × Nat) × Metrics)
  deriving DecidableEq, Repr

def Font.rasterize (f : Font) (c : Char) (px : Nat) : Metrics :=
  (alLookup f.glyphs (c, px)).getD { width := 0, height := 0 }

/-- RasterizedGlyph (text.rs lines 48-55). -/
inductive RasterizedGlyph where
  | invisible
  | visible (atlasIndex : Nat) (allocation : Rect)
  deriving DecidableEq, Repr

/-- TextRenderer's glyph-cache state (text.rs lines 64-81): fonts, the fixed
set of glyph-atlas allocators, and the rasterized-glyph cache keyed by
(font id, font size, character). Pipelines, textures, samplers and the
per-z text vertex buffers are external or unclaimed and dropped. -/
structure TextRenderer (F : Type) where
  fonts : List (F × Font)
  atlasAllocators : List ShelfAllocator
  rasterizedGlyphs : List ((F × Nat × Char) × RasterizedGlyph)
  deriving DecidableEq, Repr

/-- TextRenderer::new (text.rs lines 84-99): cap the device maximum at 16384,
divide the configured texel budget by the squared side rounding up, and
create exactly that many full-size allocators once. -/
def TextRenderer.new {F : Type} (deviceMaxTextureSize atlasArea : Nat)
    (fonts : List (F × Font)) : TextRenderer F :=
  let maxTextureSize := min deviceMaxTextureSize 16384
  let maxTextureArea := maxTextureSize * maxTextureSize
  let atlasCount := (atlasArea + maxTextureArea - 1) / maxTextureArea
  { fonts := fonts
    atlasAllocators := (List.range atlasCount).map (fun _ => ShelfAllocator.new maxTextureSize)
    rasterizedGlyphs := [] }

/-- First allocator (in index order) accepting the rectangle, with its index
and the updated allocator list (text.rs lines 315-321). -/
def allocFirst : List ShelfAllocator → Nat → Nat → Option (Nat × Rect × List ShelfAllocator)
  | [], _, _ => none
  | a :: t, w, h =>
    match a.allocate w h with
    | some (r, a') => some (0, r, a' :: t)
    | none => (allocFirst t w h).map (fun p => (p.1 + 1, p.2.1, a :: p.2.2))

/-- rasterize_glyph (text.rs lines 297-354): return at once when the triple is
cached; look the font up (unwrap), rasterize; cache zero-metric glyphs as
the invisible sentinel without touching any allocator; otherwise allocate
the padded bitmap in the first accepting glyph atlas, none (the "Glyph
atlas overflow" expect panic) when every allocator refuses. The texture
upload is external. -/
def rasterizeGlyph {F : Type} [DecidableEq F] (tr : TextRenderer F) (fontId : F)
    (fontSize : Nat) (c : Char) : Option (TextRenderer F) :=
  if (alLookup tr.rasterizedGlyphs (fontId, fontSize, c)).isSome then some tr
  else
    match alLookup tr.fonts fontId with
    | none => none
    | some font =>
      let metrics := font.rasterize c fontSize
      if metrics.width = 0 ∨ metrics.height = 0 then
        some { tr with
               rasterizedGlyphs :=
                 alInsert tr.rasterizedGlyphs (fontId, fontSize, c) RasterizedGlyph.invisible }
      else
        let paddedWidth := metrics.width + 2
        let paddedHeight := metrics.height + 2
        match allocFirst tr.atlasAllocators paddedWidth paddedHeight with
        | none => none
        | some (atlasIndex, allocation, allocators') =>
          some { tr with
                 atlasAllocators := allocators'
                 rasterizedGlyphs :=
                   alInsert tr.rasterizedGlyphs (fontId, fontSize, c)
                     (RasterizedGlyph.visible atlasIndex allocation) }

/-! ## Operation sequences over the legacy core

A run interleaves the public operations; it aborts (none) at the first
panic and collects the handles returned by add_area. -/

inductive Op (SID : Type) where
  | addArea (a : UiArea SID)
  | mutArea (h : Nat) (f : UiArea SID → UiArea SID)
  | removeArea (h : Nat)
  | clearAreas
  | frame (received : List Nat)
  | addSprite (fuel : Nat) (sid : SID) (img : Image)

def step {SID : Type} [DecidableEq SID] (s : Stgi SID) :
    Op SID → Option (Stgi SID × Option Nat)
  | .addArea a => (addArea s a).map (fun p => (p.2, some p.1))
  | .mutArea h f => some ((areaMutF s h f).2, none)
  | .removeArea h => some (removeArea s h, none)
  | .clearAreas => some (clear s, none)
  | .frame received => (syncFrame s received).map (fun s' => (s', none))
  | .addSprite fuel sid img => (addSprite fuel s sid img).map (fun s' => (s', none))

def run {SID : Type} [DecidableEq SID] (s : Stgi SID) :
    List (Op SID) → Option (Stgi SID × List Nat)
  | [] => some (s, [])
  | op :: rest =>
    match step s op with
    | none => none
    | some (s', emitted) =>
      match run s' rest with
      | none => none
      | some (s'', hs) => some (s'', emitted.toList ++ hs)

/-! ## Observers -/

/-- All handles currently stored across the four z-maps, in map order. -/
def keysOf {SID : Type} (s : Stgi SID) : List Nat :=
  (s.uiAreas.map (fun row => row.map (fun kv => kv.1))).flatten

/-- The instance buffer at a z index and atlas index, if present. -/
def bufAt {SID : Type} (s : Stgi SID) (zi ai : Nat) : Option VertexBuffer :=
  match s.vertexBuffers[zi]? with
  | some row =>
    match row[ai]? with
    | some (some b) => some b
    | _ => none
  | none => none

/-! ## Concrete instances used by witnesses and counterexamples -/

def exImage1 : Image := { width := 10, height := 10, pixels := [1] }

def exImage2 : Image := { width := 20, height := 20, pixels := [2] }

def exArea (z : ZOrder) : UiArea Nat :=
  { xMin := 0, xMax := 10, yMin := 0, yMax := 10, z := z, sprite := 0 }

/-- Scenario refuting C1 as stated: four areas over one sprite, two per
z-level, synced; then area 1's z is mutated from First to Second and area 1
is removed before the next sync. -/
def exOpsC1 : List (Op Nat) :=
  [Op.addSprite 4 0 exImage1,
   Op.addArea (exArea ZOrder.first),
   Op.addArea (exArea ZOrder.first),
   Op.addArea (exArea ZOrder.second),
   Op.addArea (exArea ZOrder.second),
   Op.frame [],
   Op.mutArea 1 (fun a => { a with z := ZOrder.second }),
   Op.removeArea 1,
   Op.frame []]

/-- Scenario refuting C2 as stated: one area, removed twice before a sync. -/
def exOpsC2 : List (Op Nat) :=
  [Op.addArea (exArea ZOrder.first),
   Op.removeArea 1,
   Op.removeArea 1]

/-- Failing input for C3: area 1 is the sole occupant of First's buffer; its z
is mutated to Second and a sync runs. -/
def exOpsC3 : List (Op Nat) :=
  [Op.addSprite 4 0 exImage1,
   Op.addArea (exArea ZOrder.first),
   Op.frame [],
   Op.mutArea 1 (fun a => { a with z := ZOrder.second }),
   Op.frame []]

/-- A sample quad for hand-built buffer states. -/
def exQuad (n : Nat) : Quad :=
  { v0 := { posX := 0, posY := 0, texXNum := 1, texYNum := 1, texDen := 512, id := n }
    v1 := { posX := 0, posY := 10, texXNum := 1, texYNum := 11, texDen := 512, id := n }
    v2 := { posX := 10, posY := 0, texXNum := 11, texYNum := 1, texDen := 512, id := n }
    v3 := { posX := 10, posY := 10, texXNum := 11, texYNum := 11, texDen := 512, id := n } }

def exSprite : StoredSprite :=
  { width := 10, height := 10, image := exImage1, atlasIndex := 0,
    allocation := { minX := 0, minY := 0, maxX := 12, maxY := 12 } }

def exIA (off : Option Nat) : InternalUiArea Nat :=
  { area := exArea ZOrder.first, oldZ := ZOrder.first, bufferOffset := off }

def exBuf : VertexBuffer :=
  { size := 160, capacity := 160, staging := [exQuad 1, exQuad 2], order := [1, 2] }

/-- A coherent two-occupant state: handles 1 and 2 resident in the z-First
buffer at offsets 0 and 80, handle 1 queued for removal. -/
def exStateC1 : Stgi Nat :=
  { maxTextureSize := 512
    atlases := [{ size := 512, shelfX := 24, shelfY := 0, shelfH := 12 }]
    storedSprites := [(0, exSprite)]
    vertexBuffers := [[some exBuf], [none], [none], [none]]
    nextId := 3
    uiAreas := [[(1, exIA (some 0)), (2, exIA (some 80))], [], [], []]
    dirtyAreas := []
    areasToRemove := [1]
    cursorMoved := false
    cursorPos := (0, 0)
    cursorPickingResult := none }

def exFont : Font :=
  { glyphs := [((' ', 12), { width := 0, height := 0 }),
               (('a', 12), { width := 5, height := 7 })] }

def exTextRenderer : TextRenderer Nat :=
  { fonts := [(0, exFont)]
    atlasAllocators := [ShelfAllocator.new 64]
    rasterizedGlyphs := [] }

/-- A glyph-atlas state whose single tiny allocator cannot fit any padded
visible glyph. -/
def exTextRendererTiny : TextRenderer Nat :=
  { fonts := [(0, exFont)]
    atlasAllocators := [ShelfAllocator.new 4]
    rasterizedGlyphs := [] }

/-- The renderer state after rasterizing the visible glyph once. -/
def exTRa : TextRenderer Nat :=
  (rasterizeGlyph exTextRenderer 0 12 'a').getD exTextRenderer

/-- A legacy state with one sprite stored in a growable 512-sided atlas. -/
def exStateGrow : Stgi Nat :=
  { maxTextureSize := 2048
    atlases := [{ size := 512, shelfX := 12, shelfY := 0, shelfH := 12 }]
    storedSprites := [(0, exSprite)]
    vertexBuffers := [[none], [none], [none], [none]]
    nextId := 1
    uiAreas := [[], [], [], []]
    dirtyAreas := []
    areasToRemove := []
    cursorMoved := false
    cursorPos := (0, 0)
    cursorPickingResult := none }

def exBuilder : StgiBuilder Nat :=
  { presentIds := [3]
    sprites := [(3, LoadedSprite.inanimate exImage1)]
    spriteAreas := [(100, 3)] }

/-- All handles across the four z-maps of a map list, in map order. -/
def mapsKeys {SID : Type} (maps : List (List (Nat × InternalUiArea SID))) : List Nat :=
  (maps.map (fun row => row.map (fun kv => kv.1))).flatten

/-- Wellformedness invariant of reachable legacy states: the dirty set is
strictly sorted, every stored handle is positive and below next_id, no
handle is stored twice, and next_id is positive. -/
def Inv {SID : Type} (s : Stgi SID) : Prop :=
  List.Pairwise (· < ·) s.dirtyAreas ∧
  (∀ k ∈ keysOf s, 1 ≤ k ∧ k < s.nextId) ∧
  (keysOf s).Nodup ∧
  1 ≤ s.nextId

/-- A run issuing three handles with a removal in between. -/
def exOpsC4 : List (Op Nat) :=
  [Op.addArea (exArea ZOrder.first), Op.addArea (exArea ZOrder.second),
   Op.removeArea 1, Op.addArea (exArea ZOrder.first)]

def exStC4 : Stgi Nat :=
  ((run (Stgi.init 512) exOpsC4).map Prod.fst).getD (Stgi.init 512)

def exS1C10 : Stgi Nat :=
  ((run (Stgi.init 512) [Op.addArea (exArea ZOrder.first)]).map Prod.fst).getD (Stgi.init 512)

def exS2C10 : Stgi Nat :=
  ((run exS1C10 [Op.removeArea 1, Op.frame []]).map Prod.fst).getD exS1C10

def exMidC5 : Stgi Nat := (addSprite 2 (Stgi.init 512) 7 exImage1).getD (Stgi.init 512)

def exAfterDupC5 : Stgi Nat := (addSprite 2 exMidC5 7 exImage2).getD exMidC5

def exGrown : Stgi Nat := (growLastAtlasOrCreateNew exStateGrow).getD exStateGrow

/-- Like exStateGrow but with a device maximum too small for doubling. -/
def exStateGrowCap : Stgi Nat := { exStateGrow with maxTextureSize := 600 }

def exGrownCap : Stgi Nat := (growLastAtlasOrCreateNew exStateGrowCap).getD exStateGrowCap

/-! # Theorems -/

/-! ## Association-list lemmas -/

theorem alLookup_alInsert_self {κ ν : Type} [DecidableEq κ] (l : List (κ × ν)) (k : κ) (v : ν) :
    alLookup (alInsert l k v) k = some v := by
  induction l with
  | nil => simp [alInsert, alLookup]
  | cons p t ih =>
    by_cases hk : k = p.1
    · simp [alInsert, hk, alLookup]
    · simp [alInsert, hk, alLookup, ih]

theorem alLookup_none_iff {κ ν : Type} [DecidableEq κ] (l : List (κ × ν)) (k : κ) :
    alLookup l k = none ↔ k ∉ l.map Prod.fst := by
  induction l with
  | nil => simp [alLookup]
  | cons p t ih =>
    by_cases hk : k = p.1
    · simp [alLookup, hk]
    · simp [alLookup, hk, ih]

theorem alLookup_isSome_iff {κ ν : Type} [DecidableEq κ] (l : List (κ × ν)) (k : κ) :
    (alLookup l k).isSome ↔ k ∈ l.map Prod.fst := by
  rcases h : alLookup l k with _ | v
  · simpa using (alLookup_none_iff l k).mp h
  · simp only [Option.isSome_some, true_iff]
    by_contra hmem
    rw [(alLookup_none_iff l k).mpr hmem] at h
    exact Option.noConfusion h

theorem alRemove_none_iff {κ ν : Type} [DecidableEq κ] (l : List (κ × ν)) (k : κ) :
    alRemove l k = none ↔ k ∉ l.map Prod.fst := by
  induction l with
  | nil => simp [alRemove]
  | cons p t ih =>
    obtain ⟨k', v'⟩ := p
    by_cases hk : k = k'
    · simp [alRemove, hk]
    · have hstep : alRemove ((k', v') :: t) k = (alRemove t k).map (fun p => (p.1, (k', v') :: p.2)) := by
        simp [alRemove, hk]
      rw [hstep, Option.map_eq_none', ih]
      simp [hk]

theorem alRemove_sublist {κ ν : Type} [DecidableEq κ] :
    ∀ (l : List (κ × ν)) (k : κ) (v : ν) (l' : List (κ × ν)),
      alRemove l k = some (v, l') → l'.Sublist l := by
  intro l
  induction l with
  | nil => intro k v l' h; simp [alRemove] at h
  | cons p t ih =>
    intro k v l' h
    obtain ⟨k', v'⟩ := p
    by_cases hk : k = k'
    · subst hk
      simp [alRemove] at h
      rw [← h.2]
      exact List.sublist_cons_self (k, v') t
    · simp only [alRemove, if_neg hk] at h
      rcases Option.map_eq_some'.mp h with ⟨q, hq, hfq⟩
      obtain ⟨q1, q2⟩ := q
      simp only [Prod.mk.injEq] at hfq
      rw [← hfq.2]
      exact List.Sublist.cons₂ (k', v') (ih k q1 q2 hq)

theorem alRemove_not_mem {κ ν : Type} [DecidableEq κ] :
    ∀ (l : List (κ × ν)) (k : κ) (v : ν) (l' : List (κ × ν)),
      (l.map Prod.fst).Nodup → alRemove l k = some (v, l') → k ∉ l'.map Prod.fst := by
  intro l
  induction l with
  | nil => intro k v l' _ h; simp [alRemove] at h
  | cons p t ih =>
    intro k v l' hnd h
    obtain ⟨k', v'⟩ := p
    simp only [List.map_cons, List.nodup_cons] at hnd
    by_cases hk : k = k'
    · subst hk
      simp [alRemove] at h
      rw [← h.2]
      exact hnd.1
    · simp only [alRemove, if_neg hk] at h
      rcases Option.map_eq_some'.mp h with ⟨q, hq, hfq⟩
      obtain ⟨q1, q2⟩ := q
      simp only [Prod.mk.injEq] at hfq
      rw [← hfq.2]
      simp only [List.map_cons, List.mem_cons]
      intro hc
      rcases hc with hc | hc
      · exact hk hc
      · exact ih k q1 q2 hnd.2 hq hc

theorem alUpdate_keys {κ ν : Type} [DecidableEq κ] :
    ∀ (l : List (κ × ν)) (k : κ) (f : ν → ν) (l' : List (κ × ν)),
      alUpdate l k f = some l' → l'.map Prod.fst = l.map Prod.fst := by
  intro l
  induction l with
  | nil => intro k f l' h; simp [alUpdate] at h
  | cons p t ih =>
    intro k f l' h
    obtain ⟨k', v'⟩ := p
    by_cases hk : k = k'
    · subst hk
      simp [alUpdate] at h
      rw [← h]
      simp
    · simp only [alUpdate, if_neg hk] at h
      rcases Option.map_eq_some'.mp h with ⟨t', ht, hft⟩
      rw [← hft]
      simp [ih k f t' ht]

theorem alUpdate_of_lookup {κ ν : Type} [DecidableEq κ] :
    ∀ (l : List (κ × ν)) (k : κ) (v : ν) (f : ν → ν),
      alLookup l k = some v →
      ∃ l', alUpdate l k f = some l' ∧ alLookup l' k = some (f v) := by
  intro l
  induction l with
  | nil => intro k v f h; simp [alLookup] at h
  | cons p t ih =>
    intro k v f h
    obtain ⟨k', v'⟩ := p
    by_cases hk : k = k'
    · subst hk
      simp [alLookup] at h
      exact ⟨(k, f v') :: t, by simp [alUpdate], by simp [alLookup, h]⟩
    · simp only [alLookup, if_neg hk] at h
      rcases ih k v f h with ⟨t', ht, hl⟩
      exact ⟨(k', v') :: t', by simp [alUpdate, if_neg hk, ht], by simp [alLookup, if_neg hk, hl]⟩

theorem alInsert_keys {κ ν : Type} [DecidableEq κ] :
    ∀ (l : List (κ × ν)) (k : κ) (v : ν), k ∉ l.map Prod.fst →
      (alInsert l k v).map Prod.fst = l.map Prod.fst ++ [k] := by
  intro l
  induction l with
  | nil => intro k v _; simp [alInsert]
  | cons p t ih =>
    intro k v hmem
    obtain ⟨k', v'⟩ := p
    simp only [List.map_cons, List.mem_cons] at hmem
    push_neg at hmem
    simp [alInsert, if_neg hmem.1, ih k v hmem.2]

/-! ## dirtyInsert lemmas -/

theorem mem_dirtyInsert (h a : Nat) :
    ∀ l : List Nat, a ∈ dirtyInsert h l ↔ a = h ∨ a ∈ l := by
  intro l
  induction l with
  | nil => simp [dirtyInsert]
  | cons x t ih =>
    by_cases hlt : h < x
    · simp [dirtyInsert, hlt]
    · by_cases heq : h = x
      · subst heq
        simp [dirtyInsert, hlt]
      · simp [dirtyInsert, hlt, heq, ih]
        tauto

theorem dirtyInsert_sorted (h : Nat) :
    ∀ l : List Nat, List.Pairwise (· < ·) l → List.Pairwise (· < ·) (dirtyInsert h l) := by
  intro l
  induction l with
  | nil => intro _; simp [dirtyInsert]
  | cons x t ih =>
    intro hs
    rcases List.pairwise_cons.mp hs with ⟨hx, ht⟩
    by_cases hlt : h < x
    · simp only [dirtyInsert, if_pos hlt]
      exact List.pairwise_cons.mpr ⟨by
        intro b hb
        rcases List.mem_cons.mp hb with hb | hb
        · rw [hb]; exact hlt
        · exact lt_trans hlt (hx b hb), hs⟩
    · by_cases heq : h = x
      · simp [dirtyInsert, hlt, heq, hs]
      · simp only [dirtyInsert, if_neg hlt, if_neg heq]
        refine List.pairwise_cons.mpr ⟨?_, ih ht⟩
        intro b hb
        rcases (mem_dirtyInsert h b t).mp hb with hb | hb
        · rw [hb]; omega
        · exact hx b hb

/-! ## swapRemove and setAt lemmas -/

theorem setAt_some {α : Type} (l : List α) (i : Nat) (a : α) (h : i < l.length) :
    setAt l i a = some (l.set i a) := by
  simp [setAt, h]

theorem swapRemove_eq {α : Type} (l : List α) (i : Nat) (lastElem : α)
    (hlast : l.getLast? = some lastElem) (hi : i < l.length) :
    swapRemove l i = some ((l.set i lastElem).dropLast) := by
  simp [swapRemove, hlast, hi]

theorem swapRemove_length {α : Type} (l l' : List α) (i : Nat)
    (h : swapRemove l i = some l') : l'.length = l.length - 1 := by
  rcases hlast : l.getLast? with _ | lastElem
  · simp [swapRemove, hlast] at h
  · by_cases hi : i < l.length
    · rw [swapRemove_eq l i lastElem hlast hi] at h
      rw [← Option.some.inj h]
      simp
    · simp [swapRemove, hlast, hi] at h

/-! ## Lemmas on the four-map search helpers -/

theorem alUpdate_none_iff {κ ν : Type} [DecidableEq κ] (l : List (κ × ν)) (k : κ) (f : ν → ν) :
    alUpdate l k f = none ↔ k ∉ l.map Prod.fst := by
  induction l with
  | nil => simp [alUpdate]
  | cons p t ih =>
    obtain ⟨k', v'⟩ := p
    by_cases hk : k = k'
    · simp [alUpdate, hk]
    · have hstep : alUpdate ((k', v') :: t) k f = (alUpdate t k f).map (fun t' => (k', v') :: t') := by
        simp [alUpdate, hk]
      rw [hstep, Option.map_eq_none', ih]
      simp [hk]

theorem alRemove_mem {κ ν : Type} [DecidableEq κ] (l : List (κ × ν)) (k : κ)
    (p : ν × List (κ × ν)) (h : alRemove l k = some p) : k ∈ l.map Prod.fst := by
  by_contra hmem
  rw [(alRemove_none_iff l k).mpr hmem] at h
  exact Option.noConfusion h

theorem mapsKeys_cons {SID : Type} (row : List (Nat × InternalUiArea SID))
    (rest : List (List (Nat × InternalUiArea SID))) :
    mapsKeys (row :: rest) = row.map Prod.fst ++ mapsKeys rest := by
  simp [mapsKeys]

theorem findInMaps_none_iff {SID : Type} [DecidableEq SID]
    (maps : List (List (Nat × InternalUiArea SID))) (h : Nat) :
    findInMaps maps h = none ↔ h ∉ mapsKeys maps := by
  induction maps with
  | nil => simp [findInMaps, mapsKeys]
  | cons row rest ih =>
    rw [mapsKeys_cons]
    rcases hrow : alLookup row h with _ | ia
    · simp only [findInMaps, hrow, ih, List.mem_append]
      have := (alLookup_none_iff row h).mp hrow
      tauto
    · simp only [findInMaps, hrow]
      have : h ∈ row.map Prod.fst := by
        have := alLookup_isSome_iff row h
        rw [hrow] at this
        simpa using this
      simp only [List.mem_append]
      constructor
      · intro hc; exact Option.noConfusion hc
      · intro hc; exact absurd (Or.inl this) hc

theorem updateInMaps_keys {SID : Type} [DecidableEq SID] :
    ∀ (maps : List (List (Nat × InternalUiArea SID))) (h : Nat)
      (f : InternalUiArea SID → InternalUiArea SID) maps',
      updateInMaps maps h f = some maps' → mapsKeys maps' = mapsKeys maps := by
  intro maps
  induction maps with
  | nil => intro h f maps' hu; simp [updateInMaps] at hu
  | cons row rest ih =>
    intro h f maps' hu
    rcases hrow : alUpdate row h f with _ | row'
    · simp only [updateInMaps, hrow] at hu
      rcases Option.map_eq_some'.mp hu with ⟨rest', hrest, hcons⟩
      rw [← hcons, mapsKeys_cons, mapsKeys_cons, ih h f rest' hrest]
    · simp only [updateInMaps, hrow] at hu
      rw [← Option.some.inj hu, mapsKeys_cons, mapsKeys_cons,
        alUpdate_keys row h f row' hrow]

theorem updateInMaps_none_iff {SID : Type} [DecidableEq SID] :
    ∀ (maps : List (List (Nat × InternalUiArea SID))) (h : Nat)
      (f : InternalUiArea SID → InternalUiArea SID),
      updateInMaps maps h f = none ↔ h ∉ mapsKeys maps := by
  intro maps
  induction maps with
  | nil => intro h f; simp [updateInMaps, mapsKeys]
  | cons row rest ih =>
    intro h f
    rw [mapsKeys_cons]
    rcases hrow : alUpdate row h f with _ | row'
    · simp only [updateInMaps, hrow, Option.map_eq_none', ih, List.mem_append]
      have := (alUpdate_none_iff row h f).mp hrow
      tauto
    · simp only [updateInMaps, hrow, List.mem_append]
      have : h ∈ row.map Prod.fst := by
        by_contra hmem
        rw [(alUpdate_none_iff row h f).mpr hmem] at hrow
        exact Option.noConfusion hrow
      constructor
      · intro hc; exact Option.noConfusion hc
      · intro hc; exact absurd (Or.inl this) hc

theorem removeFromMaps_sublist {SID : Type} [DecidableEq SID] :
    ∀ (maps : List (List (Nat × InternalUiArea SID))) (h : Nat) ia maps',
      removeFromMaps maps h = some (ia, maps') → (mapsKeys maps').Sublist (mapsKeys maps) := by
  intro maps
  induction maps with
  | nil => intro h ia maps' hr; simp [removeFromMaps] at hr
  | cons row rest ih =>
    intro h ia maps' hr
    rcases hrow : alRemove row h with _ | q
    · simp only [removeFromMaps, hrow] at hr
      rcases Option.map_eq_some'.mp hr with ⟨p, hp, hcons⟩
      obtain ⟨p1, p2⟩ := p
      simp only [Prod.mk.injEq] at hcons
      rw [← hcons.2, mapsKeys_cons, mapsKeys_cons]
      exact (ih h p1 p2 hp).append_left (row.map Prod.fst)
    · obtain ⟨v, row'⟩ := q
      simp only [removeFromMaps, hrow, Option.some.injEq, Prod.mk.injEq] at hr
      rw [← hr.2, mapsKeys_cons, mapsKeys_cons]
      exact ((alRemove_sublist row h v row' hrow).map Prod.fst).append_right (mapsKeys rest)

theorem removeFromMaps_none_iff {SID : Type} [DecidableEq SID] :
    ∀ (maps : List (List (Nat × InternalUiArea SID))) (h : Nat),
      removeFromMaps maps h = none ↔ h ∉ mapsKeys maps := by
  intro maps
  induction maps with
  | nil => simp [removeFromMaps, mapsKeys]
  | cons row rest ih =>
    intro h
    rw [mapsKeys_cons]
    rcases hrow : alRemove row h with _ | q
    · simp only [removeFromMaps, hrow, Option.map_eq_none', ih, List.mem_append]
      have := (alRemove_none_iff row h).mp hrow
      tauto
    · simp only [removeFromMaps, hrow, List.mem_append]
      have := alRemove_mem row h q hrow
      constructor
      · intro hc; exact Option.noConfusion hc
      · intro hc; exact absurd (Or.inl this) hc

theorem removeFromMaps_not_mem {SID : Type} [DecidableEq SID] :
    ∀ (maps : List (List (Nat × InternalUiArea SID))) (h : Nat) ia maps',
      (mapsKeys maps).Nodup → removeFromMaps maps h = some (ia, maps') →
      h ∉ mapsKeys maps' := by
  intro maps
  induction maps with
  | nil => intro h ia maps' _ hr; simp [removeFromMaps] at hr
  | cons row rest ih =>
    intro h ia maps' hnd hr
    rw [mapsKeys_cons] at hnd
    rcases List.nodup_append.mp hnd with ⟨hnd1, hnd2, hdisj⟩
    rcases hrow : alRemove row h with _ | q
    · simp only [removeFromMaps, hrow] at hr
      rcases Option.map_eq_some'.mp hr with ⟨p, hp, hcons⟩
      obtain ⟨p1, p2⟩ := p
      simp only [Prod.mk.injEq] at hcons
      rw [← hcons.2, mapsKeys_cons]
      intro hc
      rcases List.mem_append.mp hc with hc | hc
      · exact (alRemove_none_iff row h).mp hrow hc
      · exact ih h p1 p2 hnd2 hp hc
    · obtain ⟨v, row'⟩ := q
      simp only [removeFromMaps, hrow, Option.some.injEq, Prod.mk.injEq] at hr
      rw [← hr.2, mapsKeys_cons]
      intro hc
      rcases List.mem_append.mp hc with hc | hc
      · exact alRemove_not_mem row h v row' hnd1 hrow hc
      · exact hdisj (alRemove_mem row h (v, row') hrow) hc

theorem mapsKeys_set_eq {SID : Type} :
    ∀ (maps : List (List (Nat × InternalUiArea SID))) (zi : Nat)
      (row row' : List (Nat × InternalUiArea SID)),
      maps[zi]? = some row → row'.map Prod.fst = row.map Prod.fst →
      mapsKeys (maps.set zi row') = mapsKeys maps := by
  intro maps
  induction maps with
  | nil => intro zi row row' hget _; simp at hget
  | cons r rest ih =>
    intro zi row row' hget hkeys
    cases zi with
    | zero =>
      simp only [List.getElem?_cons_zero, Option.some.injEq] at hget
      subst hget
      simp [mapsKeys_cons, hkeys]
    | succ n =>
      simp only [List.getElem?_cons_succ] at hget
      simp [mapsKeys_cons, List.set_cons_succ, ih n row row' hget hkeys]

theorem mapsKeys_set_perm {SID : Type} :
    ∀ (maps : List (List (Nat × InternalUiArea SID))) (zi : Nat)
      (row row' : List (Nat × InternalUiArea SID)) (k : Nat),
      maps[zi]? = some row → row'.map Prod.fst = row.map Prod.fst ++ [k] →
      (mapsKeys (maps.set zi row')).Perm (k :: mapsKeys maps) := by
  intro maps
  induction maps with
  | nil => intro zi row row' k hget _; simp at hget
  | cons r rest ih =>
    intro zi row row' k hget hkeys
    cases zi with
    | zero =>
      have hr : r = row := by simpa using hget
      subst hr
      simp only [List.set_cons_zero, mapsKeys_cons, hkeys]
      have heq : (r.map Prod.fst ++ [k]) ++ mapsKeys rest
          = r.map Prod.fst ++ (k :: mapsKeys rest) := by simp
      rw [heq]
      exact List.perm_middle
    | succ n =>
      simp only [List.getElem?_cons_succ] at hget
      simp only [List.set_cons_succ, mapsKeys_cons]
      exact ((ih n row row' k hget hkeys).append_left (r.map Prod.fst)).trans
        List.perm_middle

theorem rowKeys_subset {SID : Type} :
    ∀ (maps : List (List (Nat × InternalUiArea SID))) (zi : Nat)
      (row : List (Nat × InternalUiArea SID)) (a : Nat),
      maps[zi]? = some row → a ∈ row.map Prod.fst → a ∈ mapsKeys maps := by
  intro maps
  induction maps with
  | nil => intro zi row a hget _; simp at hget
  | cons r rest ih =>
    intro zi row a hget hmem
    cases zi with
    | zero =>
      simp only [List.getElem?_cons_zero, Option.some.injEq] at hget
      subst hget
      rw [mapsKeys_cons]
      exact List.mem_append.mpr (Or.inl hmem)
    | succ n =>
      simp only [List.getElem?_cons_succ] at hget
      rw [mapsKeys_cons]
      exact List.mem_append.mpr (Or.inr (ih n row a hget hmem))

theorem updateAtMap_keys {SID : Type} [DecidableEq SID]
    (maps : List (List (Nat × InternalUiArea SID))) (zi h : Nat)
    (f : InternalUiArea SID → InternalUiArea SID) maps'
    (hu : updateAtMap maps zi h f = some maps') : mapsKeys maps' = mapsKeys maps := by
  unfold updateAtMap at hu
  rcases hget : maps[zi]? with _ | row
  · simp only [hget] at hu
    exact Option.noConfusion hu
  · simp only [hget] at hu
    rcases hrow : alUpdate row h f with _ | row'
    · simp only [hrow] at hu
      exact Option.noConfusion hu
    · simp only [hrow] at hu
      have hzi : zi < maps.length := by
        rcases List.getElem?_eq_some_iff.mp hget with ⟨hlt, _⟩
        exact hlt
      rw [setAt_some maps zi row' hzi] at hu
      rw [← Option.some.inj hu]
      exact mapsKeys_set_eq maps zi row row' hget (alUpdate_keys row h f row' hrow)

/-! ## Per-operation bookkeeping lemmas -/

theorem keysOf_eq {SID : Type} (s : Stgi SID) : keysOf s = mapsKeys s.uiAreas := rfl

theorem updateCursor_fields {SID : Type} (s : Stgi SID) (received : List Nat) :
    (updateCursor s received).nextId = s.nextId ∧
    (updateCursor s received).dirtyAreas = s.dirtyAreas ∧
    (updateCursor s received).areasToRemove = s.areasToRemove ∧
    (updateCursor s received).uiAreas = s.uiAreas := by
  unfold updateCursor
  split <;> split <;> first
    | (split <;> simp)
    | simp

theorem clear_fields {SID : Type} (s : Stgi SID) :
    (clear s).nextId = s.nextId ∧ (clear s).dirtyAreas = [] ∧
    (clear s).areasToRemove = [] ∧ keysOf (clear s) = [] := by
  refine ⟨rfl, rfl, rfl, ?_⟩
  rw [keysOf_eq]
  show mapsKeys (s.uiAreas.map (fun _ => [])) = []
  induction s.uiAreas with
  | nil => rfl
  | cons r t ih => simpa [mapsKeys_cons] using ih

theorem removeArea_fields {SID : Type} (s : Stgi SID) (h : Nat) :
    (removeArea s h).nextId = s.nextId ∧ (removeArea s h).dirtyAreas = s.dirtyAreas ∧
    (removeArea s h).areasToRemove = s.areasToRemove ++ [h] ∧
    keysOf (removeArea s h) = keysOf s :=
  ⟨rfl, rfl, rfl, rfl⟩

theorem areaMutF_fields {SID : Type} [DecidableEq SID] (s : Stgi SID) (h : Nat)
    (f : UiArea SID → UiArea SID) :
    (areaMutF s h f).2.nextId = s.nextId ∧
    ((areaMutF s h f).2.dirtyAreas = dirtyInsert h s.dirtyAreas ∨
      (areaMutF s h f).2.dirtyAreas = s.dirtyAreas) ∧
    (areaMutF s h f).2.areasToRemove = s.areasToRemove ∧
    keysOf (areaMutF s h f).2 = keysOf s := by
  unfold areaMutF
  rcases hu : updateInMaps s.uiAreas h (fun ia => { ia with area := f ia.area }) with _ | maps'
  · simp
  · exact ⟨rfl, Or.inl rfl, rfl, updateInMaps_keys s.uiAreas h _ maps' hu⟩

theorem addArea_spec {SID : Type} [DecidableEq SID] (s s' : Stgi SID) (a : UiArea SID)
    (hA : Nat) (hadd : addArea s a = some (hA, s')) :
    hA = s.nextId ∧ s'.nextId = s.nextId + 1 ∧
    s'.dirtyAreas = dirtyInsert s.nextId s.dirtyAreas ∧
    s'.areasToRemove = s.areasToRemove ∧
    (s.nextId ∉ keysOf s → (keysOf s').Perm (s.nextId :: keysOf s)) := by
  unfold addArea at hadd
  by_cases hbound : s.nextId + 1 ≤ 4294967295
  · rw [if_pos hbound] at hadd
    rcases hrow : s.uiAreas[a.z.toUsize]? with _ | row
    · simp only [hrow] at hadd
      exact Option.noConfusion hadd
    · simp only [hrow] at hadd
      have hzi : a.z.toUsize < s.uiAreas.length := by
        rcases List.getElem?_eq_some_iff.mp hrow with ⟨hlt, _⟩
        exact hlt
      rw [setAt_some _ _ _ hzi] at hadd
      simp only at hadd
      by_cases hdirty : s.nextId ∈ s.dirtyAreas
      · rw [if_pos hdirty] at hadd
        exact Option.noConfusion hadd
      · rw [if_neg hdirty] at hadd
        obtain ⟨rfl, rfl⟩ := Prod.mk.injEq .. ▸ Option.some.inj hadd
        refine ⟨rfl, rfl, rfl, rfl, fun hmem => ?_⟩
        rw [keysOf_eq] at hmem ⊢
        have hrowmem : s.nextId ∉ row.map Prod.fst := by
          intro hc
          exact hmem (rowKeys_subset s.uiAreas a.z.toUsize row s.nextId hrow hc)
        exact mapsKeys_set_perm s.uiAreas a.z.toUsize row _ s.nextId hrow
          (alInsert_keys row s.nextId _ hrowmem)
  · rw [if_neg hbound] at hadd
    exact Option.noConfusion hadd

theorem removeOne_spec {SID : Type} [DecidableEq SID] (s s' : Stgi SID) (h : Nat)
    (hr : removeOne s h = some s') :
    s'.nextId = s.nextId ∧ s'.dirtyAreas = s.dirtyAreas ∧
    s'.areasToRemove = s.areasToRemove ∧
    (keysOf s').Sublist (keysOf s) ∧ ((keysOf s).Nodup → h ∉ keysOf s') := by
  unfold removeOne at hr
  rcases hfind : removeFromMaps s.uiAreas h with _ | p
  · simp only [hfind] at hr
    obtain rfl := Option.some.inj hr
    refine ⟨rfl, rfl, rfl, List.Sublist.refl _, fun _ => ?_⟩
    exact (removeFromMaps_none_iff s.uiAreas h).mp hfind
  · obtain ⟨ia, maps1⟩ := p
    simp only [hfind] at hr
    have hsub : (mapsKeys maps1).Sublist (keysOf s) :=
      removeFromMaps_sublist s.uiAreas h ia maps1 hfind
    have hnm : (keysOf s).Nodup → h ∉ mapsKeys maps1 := fun hnd =>
      removeFromMaps_not_mem s.uiAreas h ia maps1 hnd hfind
    rcases hoff : ia.bufferOffset with _ | off
    · simp only [hoff] at hr
      obtain rfl := Option.some.inj hr
      exact ⟨rfl, rfl, rfl, hsub, hnm⟩
    · simp only [hoff] at hr
      rcases hsps : alLookup s.storedSprites ia.area.sprite with _ | sps
      · simp only [hsps] at hr
        exact Option.noConfusion hr
      · simp only [hsps] at hr
        rcases hvrow : s.vertexBuffers[ia.area.z.toUsize]? with _ | vrow
        · simp only [hvrow] at hr
          exact Option.noConfusion hr
        · simp only [hvrow] at hr
          rcases hob : vrow[sps.atlasIndex]? with _ | obuf
          · simp only [hob] at hr
            exact Option.noConfusion hr
          · rcases obuf with _ | buffer
            · simp only [hob] at hr
              exact Option.noConfusion hr
            · simp only [hob] at hr
              by_cases hlen : 1 < buffer.order.length
              · rw [if_pos hlen] at hr
                by_cases hidx : off / quadBytes ≠ buffer.order.length - 1
                · rw [if_pos hidx] at hr
                  rcases hsw1 : swapRemove buffer.order (off / quadBytes) with _ | order'
                  · simp only [hsw1] at hr
                    exact Option.noConfusion hr
                  · rcases hsw2 : swapRemove buffer.staging (off / quadBytes) with _ | staging'
                    · simp only [hsw1, hsw2] at hr
                      exact Option.noConfusion hr
                    · simp only [hsw1, hsw2] at hr
                      rcases hst : staging'[off / quadBytes]? with _ | q
                      · simp only [hst] at hr
                        exact Option.noConfusion hr
                      · simp only [hst] at hr
                        rcases hsw : order'[off / quadBytes]? with _ | swapped
                        · simp only [hsw] at hr
                          exact Option.noConfusion hr
                        · simp only [hsw] at hr
                          rcases hup : updateAtMap maps1 ia.area.z.toUsize swapped
                              (fun x => { x with bufferOffset := some off }) with _ | maps2
                          · simp only [hup] at hr
                            exact Option.noConfusion hr
                          · simp only [hup] at hr
                            rcases hs1 : setAt vrow sps.atlasIndex
                                (some { buffer with
                                        order := order'
                                        staging := staging'
                                        size := buffer.size - quadBytes }) with _ | vrow'
                            · simp only [hs1] at hr
                              exact Option.noConfusion hr
                            · simp only [hs1] at hr
                              rcases hs2 : setAt
                                  ({ s with uiAreas := maps1 } : Stgi SID).vertexBuffers
                                  ia.area.z.toUsize vrow' with _ | vbs'
                              · simp only [hs2] at hr
                                exact Option.noConfusion hr
                              · simp only [hs2] at hr
                                obtain rfl := Option.some.inj hr
                                refine ⟨rfl, rfl, rfl, ?_, ?_⟩
                                · simpa [keysOf_eq,
                                    updateAtMap_keys maps1 ia.area.z.toUsize swapped _ maps2 hup]
                                    using hsub
                                · intro hnd
                                  simpa [keysOf_eq,
                                    updateAtMap_keys maps1 ia.area.z.toUsize swapped _ maps2 hup]
                                    using hnm hnd
                · rw [if_neg hidx] at hr
                  rcases hs1 : setAt vrow sps.atlasIndex
                      (some { buffer with
                              order := buffer.order.dropLast
                              staging := buffer.staging.dropLast
                              size := buffer.size - quadBytes }) with _ | vrow'
                  · simp only [hs1] at hr
                    exact Option.noConfusion hr
                  · simp only [hs1] at hr
                    rcases hs2 : setAt ({ s with uiAreas := maps1 } : Stgi SID).vertexBuffers
                        ia.area.z.toUsize vrow' with _ | vbs'
                    · simp only [hs2] at hr
                      exact Option.noConfusion hr
                    · simp only [hs2] at hr
                      obtain rfl := Option.some.inj hr
                      exact ⟨rfl, rfl, rfl, hsub, hnm⟩
              · rw [if_neg hlen] at hr
                rcases hs1 : setAt vrow sps.atlasIndex none with _ | vrow'
                · simp only [hs1] at hr
                  exact Option.noConfusion hr
                · simp only [hs1] at hr
                  rcases hs2 : setAt ({ s with uiAreas := maps1 } : Stgi SID).vertexBuffers
                      ia.area.z.toUsize vrow' with _ | vbs'
                  · simp only [hs2] at hr
                    exact Option.noConfusion hr
                  · simp only [hs2] at hr
                    obtain rfl := Option.some.inj hr
                    exact ⟨rfl, rfl, rfl, hsub, hnm⟩

theorem evictOldZ_spec {SID : Type} [DecidableEq SID] (s s' : Stgi SID) (h : Nat)
    (ia : InternalUiArea SID) (hr : evictOldZ s h ia = some s') :
    s'.nextId = s.nextId ∧ s'.dirtyAreas = s.dirtyAreas ∧
    s'.areasToRemove = s.areasToRemove ∧ keysOf s' = keysOf s := by
  unfold evictOldZ at hr
  rcases hoff : ia.bufferOffset with _ | off
  · simp only [hoff] at hr
    obtain rfl := Option.some.inj hr
    exact ⟨rfl, rfl, rfl, rfl⟩
  · simp only [hoff] at hr
    rcases hsps : alLookup s.storedSprites ia.area.sprite with _ | sps
    · simp only [hsps] at hr
      exact Option.noConfusion hr
    · simp only [hsps] at hr
      rcases hvrow : s.vertexBuffers[ia.oldZ.toUsize]? with _ | vrow
      · simp only [hvrow] at hr
        exact Option.noConfusion hr
      · simp only [hvrow] at hr
        rcases hob : vrow[sps.atlasIndex]? with _ | obuf
        · simp only [hob] at hr
          exact Option.noConfusion hr
        · rcases obuf with _ | oldBuffer
          · simp only [hob] at hr
            exact Option.noConfusion hr
          · simp only [hob] at hr
            rcases hsw1 : swapRemove oldBuffer.order (off / quadBytes) with _ | order'
            · simp only [hsw1] at hr
              exact Option.noConfusion hr
            · rcases hsw2 : swapRemove oldBuffer.staging (off / quadBytes) with _ | staging'
              · simp only [hsw1, hsw2] at hr
                exact Option.noConfusion hr
              · simp only [hsw1, hsw2] at hr
                rcases hsw : order'[off / quadBytes]? with _ | swapped
                · simp only [hsw] at hr
                  exact Option.noConfusion hr
                · simp only [hsw] at hr
                  rcases hupA : updateInMaps s.uiAreas h
                      (fun x => { x with bufferOffset := none }) with _ | mapsA
                  · simp only [hupA] at hr
                    exact Option.noConfusion hr
                  · simp only [hupA] at hr
                    rcases hupB : updateAtMap mapsA ia.oldZ.toUsize swapped
                        (fun x => { x with bufferOffset := some off }) with _ | mapsB
                    · simp only [hupB] at hr
                      exact Option.noConfusion hr
                    · simp only [hupB] at hr
                      rcases hst : staging'[off / quadBytes]? with _ | q
                      · simp only [hst] at hr
                        exact Option.noConfusion hr
                      · simp only [hst] at hr
                        rcases hs1 : setAt vrow sps.atlasIndex
                            (some { oldBuffer with
                                    order := order'
                                    staging := staging'
                                    size := oldBuffer.size - quadBytes }) with _ | vrow'
                        · simp only [hs1] at hr
                          exact Option.noConfusion hr
                        · simp only [hs1] at hr
                          rcases hs2 : setAt s.vertexBuffers ia.oldZ.toUsize vrow' with _ | vbs'
                          · simp only [hs2] at hr
                            exact Option.noConfusion hr
                          · simp only [hs2] at hr
                            obtain rfl := Option.some.inj hr
                            refine ⟨rfl, rfl, rfl, ?_⟩
                            show mapsKeys mapsB = keysOf s
                            rw [updateAtMap_keys mapsA ia.oldZ.toUsize swapped _ mapsB hupB,
                              updateInMaps_keys s.uiAreas h _ mapsA hupA, keysOf_eq]

theorem writeAreaVertices_spec {SID : Type} [DecidableEq SID] (s s' : Stgi SID) (h : Nat)
    (ia2 : InternalUiArea SID) (hr : writeAreaVertices s h ia2 = some s') :
    s'.nextId = s.nextId ∧ s'.dirtyAreas = s.dirtyAreas ∧
    s'.areasToRemove = s.areasToRemove ∧ keysOf s' = keysOf s := by
  unfold writeAreaVertices at hr
  rcases hsps : alLookup s.storedSprites ia2.area.sprite with _ | sps
  · simp only [hsps] at hr
    exact Option.noConfusion hr
  · simp only [hsps] at hr
    rcases hatl : s.atlases[sps.atlasIndex]? with _ | atlas
    · simp only [hatl] at hr
      exact Option.noConfusion hr
    · simp only [hatl] at hr
      rcases hvrow : s.vertexBuffers[ia2.area.z.toUsize]? with _ | vrow
      · simp only [hvrow] at hr
        exact Option.noConfusion hr
      · simp only [hvrow] at hr
        rcases hoff : ia2.bufferOffset with _ | off
        · simp only [hoff] at hr
          rcases hob : vrow[sps.atlasIndex]? with _ | obuf
          · simp only [hob] at hr
            exact Option.noConfusion hr
          · simp only [hob] at hr
            rcases hup : updateInMaps s.uiAreas h
                (fun x => { x with bufferOffset := some (obuf.getD
                  { size := 0, capacity := quadBytes, staging := [], order := [] }).size })
                with _ | maps'
            · simp only [hup] at hr
              exact Option.noConfusion hr
            · simp only [hup] at hr
              split at hr
              · exact Option.noConfusion hr
              · split at hr
                · exact Option.noConfusion hr
                · obtain rfl := Option.some.inj hr
                  refine ⟨rfl, rfl, rfl, ?_⟩
                  show mapsKeys maps' = keysOf s
                  rw [updateInMaps_keys s.uiAreas h _ maps' hup, keysOf_eq]
        · simp only [hoff] at hr
          rcases hob : vrow[sps.atlasIndex]? with _ | obuf
          · simp only [hob] at hr
            exact Option.noConfusion hr
          · rcases obuf with _ | buffer
            · simp only [hob] at hr
              exact Option.noConfusion hr
            · simp only [hob] at hr
              rcases hst : setAt buffer.staging (off / quadBytes)
                  (mkVertices h ia2.area sps atlas.size) with _ | staging'
              · simp only [hst] at hr
                exact Option.noConfusion hr
              · simp only [hst] at hr
                rcases hs1 : setAt vrow sps.atlasIndex
                    (some { buffer with staging := staging' }) with _ | vrow'
                · simp only [hs1] at hr
                  exact Option.noConfusion hr
                · simp only [hs1] at hr
                  rcases hs2 : setAt s.vertexBuffers ia2.area.z.toUsize vrow' with _ | vbs'
                  · simp only [hs2] at hr
                    exact Option.noConfusion hr
                  · simp only [hs2] at hr
                    obtain rfl := Option.some.inj hr
                    exact ⟨rfl, rfl, rfl, rfl⟩

theorem processDirty_spec {SID : Type} [DecidableEq SID] (s s' : Stgi SID) (h : Nat)
    (hr : processDirty s h = some s') :
    s'.nextId = s.nextId ∧ s'.dirtyAreas = s.dirtyAreas ∧
    s'.areasToRemove = s.areasToRemove ∧ keysOf s' = keysOf s := by
  unfold processDirty at hr
  rcases hfind : findInMaps s.uiAreas h with _ | ia
  · simp only [hfind] at hr
    obtain rfl := Option.some.inj hr
    exact ⟨rfl, rfl, rfl, rfl⟩
  · simp only [hfind] at hr
    rcases hev : (if ia.oldZ ≠ ia.area.z then evictOldZ s h ia else some s) with _ | s2
    · simp only [hev] at hr
      exact Option.noConfusion hr
    · simp only [hev] at hr
      have h2 : s2.nextId = s.nextId ∧ s2.dirtyAreas = s.dirtyAreas ∧
          s2.areasToRemove = s.areasToRemove ∧ keysOf s2 = keysOf s := by
        by_cases hz : ia.oldZ ≠ ia.area.z
        · rw [if_pos hz] at hev
          exact evictOldZ_spec s s2 h ia hev
        · rw [if_neg hz] at hev
          obtain rfl := Option.some.inj hev
          exact ⟨rfl, rfl, rfl, rfl⟩
      rcases hfind2 : findInMaps s2.uiAreas h with _ | ia2
      · simp only [hfind2] at hr
        obtain rfl := Option.some.inj hr
        exact h2
      · simp only [hfind2] at hr
        have h3 := writeAreaVertices_spec s2 s' h ia2 hr
        exact ⟨h3.1.trans h2.1, h3.2.1.trans h2.2.1, h3.2.2.1.trans h2.2.2.1,
          h3.2.2.2.trans h2.2.2.2⟩

/-! ## Sync-pass and sprite-registration bookkeeping -/

theorem foldRemovals_spec {SID : Type} [DecidableEq SID] :
    ∀ (q : List Nat) (s s' : Stgi SID), Stgi.foldRemovals s q = some s' →
      s'.nextId = s.nextId ∧ s'.dirtyAreas = s.dirtyAreas ∧
      s'.areasToRemove = s.areasToRemove ∧ (keysOf s').Sublist (keysOf s) := by
  intro q
  induction q with
  | nil =>
    intro s s' hr
    obtain rfl := Option.some.inj hr
    exact ⟨rfl, rfl, rfl, List.Sublist.refl _⟩
  | cons x t ih =>
    intro s s' hr
    unfold Stgi.foldRemovals at hr
    rcases h1 : removeOne s x with _ | s1
    · simp only [h1] at hr
      exact Option.noConfusion hr
    · simp only [h1] at hr
      have hs1 := removeOne_spec s s1 x h1
      have ht := ih s1 s' hr
      exact ⟨ht.1.trans hs1.1, ht.2.1.trans hs1.2.1, ht.2.2.1.trans hs1.2.2.1,
        ht.2.2.2.trans hs1.2.2.2.1⟩

theorem foldRemovals_absent {SID : Type} [DecidableEq SID] :
    ∀ (q : List Nat) (s s' : Stgi SID) (h : Nat), (keysOf s).Nodup →
      Stgi.foldRemovals s q = some s' → h ∈ q → h ∉ keysOf s' := by
  intro q
  induction q with
  | nil => intro s s' h _ _ hmem; simp at hmem
  | cons x t ih =>
    intro s s' h hnd hr hmem
    unfold Stgi.foldRemovals at hr
    rcases h1 : removeOne s x with _ | s1
    · simp only [h1] at hr
      exact Option.noConfusion hr
    · simp only [h1] at hr
      have hs1 := removeOne_spec s s1 x h1
      have hnd1 : (keysOf s1).Nodup := hs1.2.2.2.1.nodup hnd
      rcases List.mem_cons.mp hmem with hmem | hmem
      · subst hmem
        intro hc
        have := foldRemovals_spec t s1 s' hr
        exact hs1.2.2.2.2 hnd (this.2.2.2.subset hc)
      · exact ih s1 s' h hnd1 hr hmem

theorem foldDirty_spec {SID : Type} [DecidableEq SID] :
    ∀ (ds : List Nat) (s s' : Stgi SID), Stgi.foldDirty s ds = some s' →
      s'.nextId = s.nextId ∧ s'.dirtyAreas = s.dirtyAreas ∧
      s'.areasToRemove = s.areasToRemove ∧ keysOf s' = keysOf s := by
  intro ds
  induction ds with
  | nil =>
    intro s s' hr
    obtain rfl := Option.some.inj hr
    exact ⟨rfl, rfl, rfl, rfl⟩
  | cons x t ih =>
    intro s s' hr
    unfold Stgi.foldDirty at hr
    rcases h1 : processDirty s x with _ | s1
    · simp only [h1] at hr
      exact Option.noConfusion hr
    · simp only [h1] at hr
      have hs1 := processDirty_spec s s1 x h1
      have ht := ih s1 s' hr
      exact ⟨ht.1.trans hs1.1, ht.2.1.trans hs1.2.1, ht.2.2.1.trans hs1.2.2.1,
        ht.2.2.2.trans hs1.2.2.2⟩

theorem updateDirtyAreas_spec {SID : Type} [DecidableEq SID] (s s' : Stgi SID)
    (hr : updateDirtyAreas s = some s') :
    s'.nextId = s.nextId ∧ s'.dirtyAreas = [] ∧ s'.areasToRemove = [] ∧
    (keysOf s').Sublist (keysOf s) := by
  unfold updateDirtyAreas at hr
  rcases h1 : ({ s with areasToRemove := [] } : Stgi SID).foldRemovals s.areasToRemove
      with _ | s1
  · simp only [h1] at hr
    exact Option.noConfusion hr
  · simp only [h1] at hr
    have hs1 := foldRemovals_spec s.areasToRemove _ s1 h1
    have hs2 := foldDirty_spec s1.dirtyAreas _ s' hr
    dsimp only at hs1 hs2
    have hkeys1 : keysOf ({ s with areasToRemove := [] } : Stgi SID) = keysOf s := rfl
    have hkeys2 : keysOf ({ s1 with dirtyAreas := [] } : Stgi SID) = keysOf s1 := rfl
    refine ⟨hs2.1.trans hs1.1, hs2.2.1, ?_, ?_⟩
    · rw [hs2.2.2.1, hs1.2.2.1]
    · rw [hs2.2.2.2, hkeys2]
      rw [hkeys1] at hs1
      exact hs1.2.2.2

theorem updateDirtyAreas_absent {SID : Type} [DecidableEq SID] (s s' : Stgi SID) (h : Nat)
    (hnd : (keysOf s).Nodup) (hmem : h ∈ s.areasToRemove)
    (hr : updateDirtyAreas s = some s') : h ∉ keysOf s' := by
  unfold updateDirtyAreas at hr
  rcases h1 : ({ s with areasToRemove := [] } : Stgi SID).foldRemovals s.areasToRemove
      with _ | s1
  · simp only [h1] at hr
    exact Option.noConfusion hr
  · simp only [h1] at hr
    have habs : h ∉ keysOf s1 :=
      foldRemovals_absent s.areasToRemove ({ s with areasToRemove := [] } : Stgi SID) s1 h
        hnd h1 hmem
    have hs2 := foldDirty_spec s1.dirtyAreas _ s' hr
    rw [hs2.2.2.2]
    exact habs

theorem syncFrame_spec {SID : Type} [DecidableEq SID] (s s' : Stgi SID) (received : List Nat)
    (hr : syncFrame s received = some s') :
    s'.nextId = s.nextId ∧ s'.dirtyAreas = [] ∧ s'.areasToRemove = [] ∧
    (keysOf s').Sublist (keysOf s) := by
  unfold syncFrame at hr
  have hc := updateCursor_fields s received
  have hu := updateDirtyAreas_spec _ s' hr
  refine ⟨hu.1.trans hc.1, hu.2.1, hu.2.2.1, ?_⟩
  have : keysOf (updateCursor s received) = keysOf s := by
    rw [keysOf_eq, keysOf_eq, hc.2.2.2]
  rw [this] at hu
  exact hu.2.2.2

theorem syncFrame_absent {SID : Type} [DecidableEq SID] (s s' : Stgi SID) (h : Nat)
    (received : List Nat) (hnd : (keysOf s).Nodup) (hmem : h ∈ s.areasToRemove)
    (hr : syncFrame s received = some s') : h ∉ keysOf s' := by
  unfold syncFrame at hr
  have hc := updateCursor_fields s received
  have hkeys : keysOf (updateCursor s received) = keysOf s := by
    rw [keysOf_eq, keysOf_eq, hc.2.2.2]
  refine updateDirtyAreas_absent _ s' h ?_ ?_ hr
  · rw [hkeys]; exact hnd
  · rw [hc.2.2.1]; exact hmem

theorem growLastAtlasOrCreateNew_fields {SID : Type} [DecidableEq SID] (s s' : Stgi SID)
    (hr : growLastAtlasOrCreateNew s = some s') :
    s'.nextId = s.nextId ∧ s'.dirtyAreas = s.dirtyAreas ∧
    s'.areasToRemove = s.areasToRemove ∧ s'.uiAreas = s.uiAreas := by
  unfold growLastAtlasOrCreateNew at hr
  rcases hlast : s.atlases.getLast? with _ | last
  · simp only [hlast] at hr
    obtain rfl := Option.some.inj hr
    exact ⟨rfl, rfl, rfl, rfl⟩
  · simp only [hlast] at hr
    split at hr
    · split at hr
      · exact Option.noConfusion hr
      · split at hr
        · exact Option.noConfusion hr
        · obtain rfl := Option.some.inj hr
          exact ⟨rfl, rfl, rfl, rfl⟩
    · obtain rfl := Option.some.inj hr
      exact ⟨rfl, rfl, rfl, rfl⟩

theorem addSprite_fields {SID : Type} [DecidableEq SID] :
    ∀ (fuel : Nat) (s s' : Stgi SID) (sid : SID) (img : Image),
      addSprite fuel s sid img = some s' →
      s'.nextId = s.nextId ∧ s'.dirtyAreas = s.dirtyAreas ∧
      s'.areasToRemove = s.areasToRemove ∧ s'.uiAreas = s.uiAreas := by
  intro fuel
  induction fuel with
  | zero => intro s s' sid img hr; simp [addSprite] at hr
  | succ n ih =>
    intro s s' sid img hr
    unfold addSprite at hr
    by_cases hdim : img.width = 0 ∨ img.height = 0
    · rw [if_pos hdim] at hr
      exact Option.noConfusion hr
    · rw [if_neg hdim] at hr
      dsimp only at hr
      rcases hlast : s.atlases.getLast? with _ | last
      · simp only [hlast] at hr
        rcases hgrow : growLastAtlasOrCreateNew s with _ | s1
        · simp only [hgrow] at hr
          exact Option.noConfusion hr
        · simp only [hgrow] at hr
          have h1 := growLastAtlasOrCreateNew_fields s s1 hgrow
          have h2 := ih s1 s' sid img hr
          exact ⟨h2.1.trans h1.1, h2.2.1.trans h1.2.1, h2.2.2.1.trans h1.2.2.1,
            h2.2.2.2.trans h1.2.2.2⟩
      · simp only [hlast] at hr
        rcases halloc : last.allocate (img.width + 2) (img.height + 2) with _ | ra
        · simp only [halloc] at hr
          rcases hgrow : growLastAtlasOrCreateNew s with _ | s1
          · simp only [hgrow] at hr
            exact Option.noConfusion hr
          · simp only [hgrow] at hr
            have h1 := growLastAtlasOrCreateNew_fields s s1 hgrow
            have h2 := ih s1 s' sid img hr
            exact ⟨h2.1.trans h1.1, h2.2.1.trans h1.2.1, h2.2.2.1.trans h1.2.2.1,
              h2.2.2.2.trans h1.2.2.2⟩
        · obtain ⟨rect, last'⟩ := ra
          simp only [halloc] at hr
          rcases hset : setAt s.atlases (s.atlases.length - 1) last' with _ | atlases'
          · simp only [hset] at hr
            exact Option.noConfusion hr
          · simp only [hset] at hr
            obtain rfl := Option.some.inj hr
            exact ⟨rfl, rfl, rfl, rfl⟩

/-! ## Step- and run-level lemmas -/

theorem step_nextId {SID : Type} [DecidableEq SID] (s s' : Stgi SID) (op : Op SID)
    (em : Option Nat) (hstep : step s op = some (s', em)) :
    (∀ hA, em = some hA → hA = s.nextId ∧ s'.nextId = s.nextId + 1) ∧
    (em = none → s'.nextId = s.nextId) := by
  cases op with
  | addArea a =>
    simp only [step] at hstep
    rcases hadd : addArea s a with _ | p
    · rw [hadd] at hstep; exact Option.noConfusion hstep
    · obtain ⟨hA, s1⟩ := p
      rw [hadd] at hstep
      simp only [Option.map_some', Option.some.injEq, Prod.mk.injEq] at hstep
      obtain ⟨rfl, rfl⟩ := hstep
      have := addArea_spec s s1 a hA hadd
      exact ⟨fun hB hem => by
        obtain rfl := Option.some.inj hem
        exact ⟨this.1, this.2.1⟩, fun hem => Option.noConfusion hem⟩
  | mutArea h f =>
    simp only [step, Option.some.injEq, Prod.mk.injEq] at hstep
    obtain ⟨rfl, rfl⟩ := hstep
    exact ⟨fun hA hem => Option.noConfusion hem, fun _ => (areaMutF_fields s h f).1⟩
  | removeArea h =>
    simp only [step, Option.some.injEq, Prod.mk.injEq] at hstep
    obtain ⟨rfl, rfl⟩ := hstep
    exact ⟨fun hA hem => Option.noConfusion hem, fun _ => rfl⟩
  | clearAreas =>
    simp only [step, Option.some.injEq, Prod.mk.injEq] at hstep
    obtain ⟨rfl, rfl⟩ := hstep
    exact ⟨fun hA hem => Option.noConfusion hem, fun _ => rfl⟩
  | frame received =>
    simp only [step] at hstep
    rcases hsf : syncFrame s received with _ | s1
    · rw [hsf] at hstep; exact Option.noConfusion hstep
    · rw [hsf] at hstep
      simp only [Option.map_some', Option.some.injEq, Prod.mk.injEq] at hstep
      obtain ⟨rfl, rfl⟩ := hstep
      exact ⟨fun hA hem => Option.noConfusion hem,
        fun _ => (syncFrame_spec s s1 received hsf).1⟩
  | addSprite fuel sid img =>
    simp only [step] at hstep
    rcases has : addSprite fuel s sid img with _ | s1
    · rw [has] at hstep; exact Option.noConfusion hstep
    · rw [has] at hstep
      simp only [Option.map_some', Option.some.injEq, Prod.mk.injEq] at hstep
      obtain ⟨rfl, rfl⟩ := hstep
      exact ⟨fun hA hem => Option.noConfusion hem,
        fun _ => (addSprite_fields fuel s s1 sid img has).1⟩

theorem step_inv {SID : Type} [DecidableEq SID] (s s' : Stgi SID) (op : Op SID)
    (em : Option Nat) (hstep : step s op = some (s', em)) (hi : Inv s) : Inv s' := by
  obtain ⟨hsort, hbound, hnd, hpos⟩ := hi
  cases op with
  | addArea a =>
    simp only [step] at hstep
    rcases hadd : addArea s a with _ | p
    · rw [hadd] at hstep; exact Option.noConfusion hstep
    · obtain ⟨hA, s1⟩ := p
      rw [hadd] at hstep
      simp only [Option.map_some', Option.some.injEq, Prod.mk.injEq] at hstep
      obtain ⟨rfl, rfl⟩ := hstep
      obtain ⟨hh, hnext, hdirty, _, hperm⟩ := addArea_spec s s1 a hA hadd
      have hnotin : s.nextId ∉ keysOf s := by
        intro hc
        exact absurd (hbound _ hc).2 (lt_irrefl _)
      have hp := hperm hnotin
      refine ⟨?_, ?_, ?_, ?_⟩
      · rw [hdirty]; exact dirtyInsert_sorted s.nextId s.dirtyAreas hsort
      · intro k hk
        rcases List.mem_cons.mp (hp.mem_iff.mp hk) with hk | hk
        · subst hk; rw [hnext]; omega
        · have := hbound k hk
          rw [hnext]; omega
      · rw [hp.nodup_iff]
        exact List.nodup_cons.mpr ⟨hnotin, hnd⟩
      · rw [hnext]; omega
  | mutArea h f =>
    simp only [step, Option.some.injEq, Prod.mk.injEq] at hstep
    obtain ⟨rfl, rfl⟩ := hstep
    obtain ⟨hnext, hdirty, _, hkeys⟩ := areaMutF_fields s h f
    refine ⟨?_, ?_, ?_, ?_⟩
    · rcases hdirty with hdirty | hdirty
      · rw [hdirty]; exact dirtyInsert_sorted h s.dirtyAreas hsort
      · rw [hdirty]; exact hsort
    · intro k hk
      rw [hkeys] at hk
      have := hbound k hk
      rw [hnext]; omega
    · rw [hkeys]; exact hnd
    · rw [hnext]; exact hpos
  | removeArea h =>
    simp only [step, Option.some.injEq, Prod.mk.injEq] at hstep
    obtain ⟨rfl, rfl⟩ := hstep
    exact ⟨hsort, hbound, hnd, hpos⟩
  | clearAreas =>
    simp only [step, Option.some.injEq, Prod.mk.injEq] at hstep
    obtain ⟨rfl, rfl⟩ := hstep
    obtain ⟨hnext, hdirty, _, hkeys⟩ := clear_fields s
    refine ⟨?_, ?_, ?_, ?_⟩
    · rw [hdirty]; exact List.Pairwise.nil
    · intro k hk
      rw [hkeys] at hk
      exact absurd hk (List.not_mem_nil k)
    · rw [hkeys]; exact List.nodup_nil
    · rw [hnext]; exact hpos
  | frame received =>
    simp only [step] at hstep
    rcases hsf : syncFrame s received with _ | s1
    · rw [hsf] at hstep; exact Option.noConfusion hstep
    · rw [hsf] at hstep
      simp only [Option.map_some', Option.some.injEq, Prod.mk.injEq] at hstep
      obtain ⟨rfl, rfl⟩ := hstep
      obtain ⟨hnext, hdirty, _, hkeys⟩ := syncFrame_spec s s1 received hsf
      refine ⟨?_, ?_, ?_, ?_⟩
      · rw [hdirty]; exact List.Pairwise.nil
      · intro k hk
        have := hbound k (hkeys.subset hk)
        rw [hnext]; omega
      · exact hkeys.nodup hnd
      · rw [hnext]; exact hpos
  | addSprite fuel sid img =>
    simp only [step] at hstep
    rcases has : addSprite fuel s sid img with _ | s1
    · rw [has] at hstep; exact Option.noConfusion hstep
    · rw [has] at hstep
      simp only [Option.map_some', Option.some.injEq, Prod.mk.injEq] at hstep
      obtain ⟨rfl, rfl⟩ := hstep
      obtain ⟨hnext, hdirty, _, hui⟩ := addSprite_fields fuel s s1 sid img has
      have hkeys : keysOf s1 = keysOf s := by rw [keysOf_eq, keysOf_eq, hui]
      refine ⟨?_, ?_, ?_, ?_⟩
      · rw [hdirty]; exact hsort
      · intro k hk
        rw [hkeys] at hk
        have := hbound k hk
        rw [hnext]; omega
      · rw [hkeys]; exact hnd
      · rw [hnext]; exact hpos

theorem step_absent {SID : Type} [DecidableEq SID] (s s' : Stgi SID) (op : Op SID)
    (em : Option Nat) (h : Nat) (hstep : step s op = some (s', em)) (hi : Inv s)
    (hlt : h < s.nextId) (habs : h ∉ keysOf s) : h ∉ keysOf s' ∧ h < s'.nextId := by
  obtain ⟨hsort, hbound, hnd, hpos⟩ := hi
  cases op with
  | addArea a =>
    simp only [step] at hstep
    rcases hadd : addArea s a with _ | p
    · rw [hadd] at hstep; exact Option.noConfusion hstep
    · obtain ⟨hA, s1⟩ := p
      rw [hadd] at hstep
      simp only [Option.map_some', Option.some.injEq, Prod.mk.injEq] at hstep
      obtain ⟨rfl, rfl⟩ := hstep
      obtain ⟨hh, hnext, _, _, hperm⟩ := addArea_spec s s1 a hA hadd
      have hnotin : s.nextId ∉ keysOf s := by
        intro hc
        exact absurd (hbound _ hc).2 (lt_irrefl _)
      have hp := hperm hnotin
      constructor
      · intro hc
        rcases List.mem_cons.mp (hp.mem_iff.mp hc) with hc | hc
        · omega
        · exact habs hc
      · rw [hnext]; omega
  | mutArea hm f =>
    simp only [step, Option.some.injEq, Prod.mk.injEq] at hstep
    obtain ⟨rfl, rfl⟩ := hstep
    obtain ⟨hnext, _, _, hkeys⟩ := areaMutF_fields s hm f
    rw [hkeys, hnext]
    exact ⟨habs, hlt⟩
  | removeArea hm =>
    simp only [step, Option.some.injEq, Prod.mk.injEq] at hstep
    obtain ⟨rfl, rfl⟩ := hstep
    exact ⟨habs, hlt⟩
  | clearAreas =>
    simp only [step, Option.some.injEq, Prod.mk.injEq] at hstep
    obtain ⟨rfl, rfl⟩ := hstep
    obtain ⟨hnext, _, _, hkeys⟩ := clear_fields s
    rw [hkeys, hnext]
    exact ⟨List.not_mem_nil h, hlt⟩
  | frame received =>
    simp only [step] at hstep
    rcases hsf : syncFrame s received with _ | s1
    · rw [hsf] at hstep; exact Option.noConfusion hstep
    · rw [hsf] at hstep
      simp only [Option.map_some', Option.some.injEq, Prod.mk.injEq] at hstep
      obtain ⟨rfl, rfl⟩ := hstep
      obtain ⟨hnext, _, _, hkeys⟩ := syncFrame_spec s s1 received hsf
      rw [hnext]
      exact ⟨fun hc => habs (hkeys.subset hc), hlt⟩
  | addSprite fuel sid img =>
    simp only [step] at hstep
    rcases has : addSprite fuel s sid img with _ | s1
    · rw [has] at hstep; exact Option.noConfusion hstep
    · rw [has] at hstep
      simp only [Option.map_some', Option.some.injEq, Prod.mk.injEq] at hstep
      obtain ⟨rfl, rfl⟩ := hstep
      obtain ⟨hnext, _, _, hui⟩ := addSprite_fields fuel s s1 sid img has
      have hkeys : keysOf s1 = keysOf s := by rw [keysOf_eq, keysOf_eq, hui]
      rw [hkeys, hnext]
      exact ⟨habs, hlt⟩

theorem run_handles {SID : Type} [DecidableEq SID] :
    ∀ (ops : List (Op SID)) (s s' : Stgi SID) (hs : List Nat),
      run s ops = some (s', hs) →
      hs = List.range' s.nextId hs.length ∧ s'.nextId = s.nextId + hs.length := by
  intro ops
  induction ops with
  | nil =>
    intro s s' hs hr
    simp only [run, Option.some.injEq, Prod.mk.injEq] at hr
    obtain ⟨rfl, rfl⟩ := hr
    exact ⟨rfl, rfl⟩
  | cons op rest ih =>
    intro s s' hs hr
    simp only [run] at hr
    rcases hstep : step s op with _ | p
    · rw [hstep] at hr; exact Option.noConfusion hr
    · obtain ⟨s1, em⟩ := p
      rw [hstep] at hr
      rcases hrun : run s1 rest with _ | q
      · simp only [hrun] at hr
        exact Option.noConfusion hr
      · obtain ⟨s2, hs2⟩ := q
        simp only [hrun, Option.some.injEq, Prod.mk.injEq] at hr
        obtain ⟨rfl, rfl⟩ := hr
        have hnid := step_nextId s s1 op em hstep
        have hih := ih s1 s2 hs2 hrun
        cases em with
        | none =>
          have := hnid.2 rfl
          simp only [Option.toList_none, List.nil_append]
          rw [this] at hih
          exact hih
        | some hA =>
          have := hnid.1 hA rfl
          simp only [Option.toList_some]
          obtain ⟨rfl, hnext1⟩ := this
          rw [hnext1] at hih
          constructor
          · show s.nextId :: hs2 = List.range' s.nextId (s.nextId :: hs2).length
            rw [List.length_cons, List.range'_succ]
            rw [← hih.1]
          · rw [hih.2]
            simp [List.length_cons]
            omega

theorem run_inv {SID : Type} [DecidableEq SID] :
    ∀ (ops : List (Op SID)) (s s' : Stgi SID) (hs : List Nat),
      run s ops = some (s', hs) → Inv s → Inv s' := by
  intro ops
  induction ops with
  | nil =>
    intro s s' hs hr hi
    simp only [run, Option.some.injEq, Prod.mk.injEq] at hr
    obtain ⟨rfl, rfl⟩ := hr
    exact hi
  | cons op rest ih =>
    intro s s' hs hr hi
    simp only [run] at hr
    rcases hstep : step s op with _ | p
    · rw [hstep] at hr; exact Option.noConfusion hr
    · obtain ⟨s1, em⟩ := p
      rw [hstep] at hr
      rcases hrun : run s1 rest with _ | q
      · simp only [hrun] at hr
        exact Option.noConfusion hr
      · obtain ⟨s2, hs2⟩ := q
        simp only [hrun, Option.some.injEq, Prod.mk.injEq] at hr
        obtain ⟨rfl, rfl⟩ := hr
        exact ih s1 s2 hs2 hrun (step_inv s s1 op em hstep hi)

theorem run_absent {SID : Type} [DecidableEq SID] :
    ∀ (ops : List (Op SID)) (s s' : Stgi SID) (hs : List Nat) (h : Nat),
      run s ops = some (s', hs) → Inv s → h < s.nextId → h ∉ keysOf s →
      h ∉ keysOf s' := by
  intro ops
  induction ops with
  | nil =>
    intro s s' hs h hr _ _ habs
    simp only [run, Option.some.injEq, Prod.mk.injEq] at hr
    obtain ⟨rfl, rfl⟩ := hr
    exact habs
  | cons op rest ih =>
    intro s s' hs h hr hi hlt habs
    simp only [run] at hr
    rcases hstep : step s op with _ | p
    · rw [hstep] at hr; exact Option.noConfusion hr
    · obtain ⟨s1, em⟩ := p
      rw [hstep] at hr
      rcases hrun : run s1 rest with _ | q
      · simp only [hrun] at hr
        exact Option.noConfusion hr
      · obtain ⟨s2, hs2⟩ := q
        simp only [hrun, Option.some.injEq, Prod.mk.injEq] at hr
        obtain ⟨rfl, rfl⟩ := hr
        have hstep' := step_absent s s1 op em h hstep hi hlt habs
        exact ih s1 s2 hs2 h hrun (step_inv s s1 op em hstep hi) hstep'.2 hstep'.1

/-! ## Claim C6: cursor-pick channel drain semantics -/

theorem foldl_keepLast (l : List Nat) :
    ∀ init : Option Nat, l.foldl (fun _ v => some v) init = l.getLast?.or init := by
  induction l with
  | nil => intro init; rfl
  | cons x t ih =>
    intro init
    rw [List.foldl_cons, ih (some x)]
    cases t with
    | nil => rfl
    | cons y u => rw [List.getLast?_cons_cons]; rfl

/-- C6: on each frame, render's sync prefix runs update_cursor before
update_dirty_areas; update_cursor drains the asynchronous pick channel
non-blockingly keeping only the most recently arrived value, resolving 0 to
no hovered area, a nonzero id to the handle with that id, and leaving the
previously resolved result unchanged when no value arrived. -/
theorem cursor_drain_semantics {SID : Type} [DecidableEq SID] :
    (∀ (s : Stgi SID) (received : List Nat),
        syncFrame s received = updateDirtyAreas (updateCursor s received)) ∧
    (∀ (s : Stgi SID) (received : List Nat),
        (updateCursor s received).cursorPickingResult =
          match received.getLast? with
          | none => s.cursorPickingResult
          | some 0 => none
          | some v => some v) := by
  constructor
  · intro s received
    rfl
  · intro s received
    unfold updateCursor
    rw [foldl_keepLast received none, Option.or_none]
    rcases hl : received.getLast? with _ | v
    · dsimp only
      split <;> rfl
    · cases v with
      | zero => simp
      | succ n =>
        have hne : (n + 1 : Nat) ≠ 0 := Nat.succ_ne_zero n
        simp only [if_pos hne]

/-! ## Claim C7: glyph rasterization is idempotent, zero-metric glyphs cached
as the invisible sentinel -/

theorem rasterizeGlyph_caches {F : Type} [DecidableEq F] (tr tr' : TextRenderer F)
    (fid : F) (fsize : Nat) (c : Char) (h : rasterizeGlyph tr fid fsize c = some tr') :
    (alLookup tr'.rasterizedGlyphs (fid, fsize, c)).isSome := by
  unfold rasterizeGlyph at h
  by_cases hc : (alLookup tr.rasterizedGlyphs (fid, fsize, c)).isSome
  · rw [if_pos hc] at h
    obtain rfl := Option.some.inj h
    exact hc
  · rw [if_neg hc] at h
    rcases hf : alLookup tr.fonts fid with _ | font
    · simp only [hf] at h
      exact Option.noConfusion h
    · simp only [hf] at h
      split at h
      · obtain rfl := Option.some.inj h
        dsimp only
        rw [alLookup_alInsert_self]
        rfl
      · split at h
        · exact Option.noConfusion h
        · obtain rfl := Option.some.inj h
          dsimp only
          rw [alLookup_alInsert_self]
          rfl

/-- C7: rasterize_glyph is idempotent per (font, size, character) triple — a
successful call leaves the triple cached, so a second call with the same
triple returns the state unchanged at once; and a glyph whose metrics have
zero width or height is cached as the explicit invisible sentinel with no
atlas allocator touched. -/
theorem glyph_cache_idempotent_invisible {F : Type} [DecidableEq F] :
    (∀ (tr tr' : TextRenderer F) (fid : F) (fsize : Nat) (c : Char),
        rasterizeGlyph tr fid fsize c = some tr' →
        rasterizeGlyph tr' fid fsize c = some tr') ∧
    (∀ (tr : TextRenderer F) (fid : F) (fsize : Nat) (c : Char) (font : Font),
        alLookup tr.rasterizedGlyphs (fid, fsize, c) = none →
        alLookup tr.fonts fid = some font →
        (font.rasterize c fsize).width = 0 ∨ (font.rasterize c fsize).height = 0 →
        rasterizeGlyph tr fid fsize c =
          some { tr with rasterizedGlyphs := alInsert tr.rasterizedGlyphs (fid, fsize, c) RasterizedGlyph.invisible }) := by
  constructor
  · intro tr tr' fid fsize c h
    have hc := rasterizeGlyph_caches tr tr' fid fsize c h
    unfold rasterizeGlyph
    rw [if_pos hc]
  · intro tr fid fsize c font hmiss hfont hzero
    unfold rasterizeGlyph
    have hnot : ¬ (alLookup tr.rasterizedGlyphs (fid, fsize, c)).isSome = true := by
      rw [hmiss]; simp
    rw [if_neg hnot]
    simp only [hfont]
    rw [if_pos hzero]

/-! ## Claim C8: glyph atlas set fixed at construction, overflow is fatal -/

theorem allocate_size (a a' : ShelfAllocator) (w h : Nat) (r : Rect)
    (halloc : a.allocate w h = some (r, a')) : a'.size = a.size := by
  unfold ShelfAllocator.allocate at halloc
  dsimp only at halloc
  split at halloc
  · obtain ⟨_, h2⟩ := Prod.mk.injEq .. ▸ Option.some.inj halloc
    rw [← h2]
  · split at halloc
    · obtain ⟨_, h2⟩ := Prod.mk.injEq .. ▸ Option.some.inj halloc
      rw [← h2]
    · exact Option.noConfusion halloc

theorem allocFirst_sizes :
    ∀ (l : List ShelfAllocator) (w h i : Nat) (r : Rect) (l' : List ShelfAllocator),
      allocFirst l w h = some (i, r, l') →
      l'.map ShelfAllocator.size = l.map ShelfAllocator.size := by
  intro l
  induction l with
  | nil => intro w h i r l' ha; simp [allocFirst] at ha
  | cons a t ih =>
    intro w h i r l' ha
    rcases halloc : a.allocate w h with _ | ra
    · simp only [allocFirst, halloc] at ha
      rcases Option.map_eq_some'.mp ha with ⟨q, hq, hfq⟩
      obtain ⟨q1, q2, q3⟩ := q
      simp only [Prod.mk.injEq] at hfq
      rw [← hfq.2.2]
      simp only [List.map_cons]
      rw [ih w h q1 q2 q3 hq]
    · obtain ⟨r0, a'⟩ := ra
      simp only [allocFirst, halloc, Option.some.injEq, Prod.mk.injEq] at ha
      rw [← ha.2.2]
      simp only [List.map_cons]
      rw [allocate_size a a' w h r0 halloc]

theorem allocFirst_none (w h : Nat) :
    ∀ (l : List ShelfAllocator), (∀ a ∈ l, a.allocate w h = none) →
      allocFirst l w h = none := by
  intro l
  induction l with
  | nil => intro _; rfl
  | cons a t ih =>
    intro hall
    have ha := hall a (List.mem_cons_self a t)
    simp only [allocFirst, ha]
    rw [ih (fun b hb => hall b (List.mem_cons_of_mem a hb))]
    rfl

/-- C8: the glyph-atlas allocator set is created once at TextRenderer
construction — ceil(texel budget / squared capped side) allocators, each of
the capped side length — a successful rasterization never changes the
number or sizes of the allocators, and a visible glyph that no allocator
accepts makes rasterize_glyph abort (the overflow panic, modelled none). -/
theorem glyph_atlas_fixed_and_fatal {F : Type} [DecidableEq F] :
    (∀ (deviceMax atlasArea : Nat) (fonts : List (F × Font)),
        (TextRenderer.new deviceMax atlasArea fonts).atlasAllocators.length =
          (atlasArea + min deviceMax 16384 * min deviceMax 16384 - 1) /
            (min deviceMax 16384 * min deviceMax 16384) ∧
        ∀ a ∈ (TextRenderer.new deviceMax atlasArea fonts).atlasAllocators,
          a.size = min deviceMax 16384) ∧
    (∀ (tr tr' : TextRenderer F) (fid : F) (fsize : Nat) (c : Char),
        rasterizeGlyph tr fid fsize c = some tr' →
        tr'.atlasAllocators.map ShelfAllocator.size =
          tr.atlasAllocators.map ShelfAllocator.size) ∧
    (∀ (tr : TextRenderer F) (fid : F) (fsize : Nat) (c : Char) (font : Font),
        alLookup tr.rasterizedGlyphs (fid, fsize, c) = none →
        alLookup tr.fonts fid = some font →
        (font.rasterize c fsize).width ≠ 0 →
        (font.rasterize c fsize).height ≠ 0 →
        (∀ a ∈ tr.atlasAllocators,
            a.allocate ((font.rasterize c fsize).width + 2)
              ((font.rasterize c fsize).height + 2) = none) →
        rasterizeGlyph tr fid fsize c = none) := by
  refine ⟨?_, ?_, ?_⟩
  · intro deviceMax atlasArea fonts
    constructor
    · simp [TextRenderer.new]
    · intro a ha
      simp only [TextRenderer.new, List.mem_map] at ha
      rcases ha with ⟨_, _, rfl⟩
      rfl
  · intro tr tr' fid fsize c h
    unfold rasterizeGlyph at h
    by_cases hc : (alLookup tr.rasterizedGlyphs (fid, fsize, c)).isSome
    · rw [if_pos hc] at h
      obtain rfl := Option.some.inj h
      rfl
    · rw [if_neg hc] at h
      rcases hf : alLookup tr.fonts fid with _ | font
      · simp only [hf] at h
        exact Option.noConfusion h
      · simp only [hf] at h
        split at h
        · obtain rfl := Option.some.inj h
          rfl
        · rcases ha : allocFirst tr.atlasAllocators
              ((font.rasterize c fsize).width + 2)
              ((font.rasterize c fsize).height + 2) with _ | q
          · rw [ha] at h
            exact Option.noConfusion h
          · obtain ⟨i, r, allocs'⟩ := q
            rw [ha] at h
            obtain rfl := Option.some.inj h
            exact allocFirst_sizes tr.atlasAllocators _ _ i r allocs' ha
  · intro tr fid fsize c font hmiss hfont hw hh hall
    unfold rasterizeGlyph
    have hnot : ¬ (alLookup tr.rasterizedGlyphs (fid, fsize, c)).isSome = true := by
      rw [hmiss]; simp
    rw [if_neg hnot]
    simp only [hfont]
    have hzero : ¬ ((font.rasterize c fsize).width = 0 ∨ (font.rasterize c fsize).height = 0) := by
      push_neg
      exact ⟨hw, hh⟩
    rw [if_neg hzero]
    rw [allocFirst_none _ _ tr.atlasAllocators hall]

/-- Witness for C7: the visible glyph rasterized twice, and the space glyph
cached as the invisible sentinel. -/
theorem glyph_cache_idempotent_invisible_witness :
    rasterizeGlyph exTRa 0 12 'a' = some exTRa ∧
    rasterizeGlyph exTextRenderer 0 12 ' ' =
      some { exTextRenderer with rasterizedGlyphs := alInsert exTextRenderer.rasterizedGlyphs (0, 12, ' ') RasterizedGlyph.invisible } :=
  ⟨glyph_cache_idempotent_invisible.1 exTextRenderer exTRa 0 12 'a' (by decide),
   glyph_cache_idempotent_invisible.2 exTextRenderer 0 12 ' ' exFont (by decide) (by decide)
     (by decide)⟩

/-- Witness for C8 at concrete inputs: a 4-capped device with a 20-texel
budget, a successful rasterization preserving the allocator sizes, and an
exhausted tiny atlas aborting. -/
theorem glyph_atlas_fixed_and_fatal_witness :
    ((TextRenderer.new 4 20 ([] : List (Nat × Font))).atlasAllocators.length =
        (20 + min 4 16384 * min 4 16384 - 1) / (min 4 16384 * min 4 16384) ∧
      ∀ a ∈ (TextRenderer.new 4 20 ([] : List (Nat × Font))).atlasAllocators,
        a.size = min 4 16384) ∧
    exTRa.atlasAllocators.map ShelfAllocator.size =
      exTextRenderer.atlasAllocators.map ShelfAllocator.size ∧
    rasterizeGlyph exTextRendererTiny 0 12 'a' = none :=
  ⟨glyph_atlas_fixed_and_fatal.1 4 20 [],
   glyph_atlas_fixed_and_fatal.2.1 exTextRenderer exTRa 0 12 'a' (by decide),
   glyph_atlas_fixed_and_fatal.2.2 exTextRendererTiny 0 12 'a' exFont (by decide) (by decide)
     (by decide) (by decide) (by decide)⟩

/-! ## Claims C4, C2, C10: run-level properties of the area store -/

theorem inv_init {SID : Type} (m : Nat) : Inv (Stgi.init m : Stgi SID) := by
  have hkeys : keysOf (Stgi.init m : Stgi SID) = [] := rfl
  refine ⟨List.Pairwise.nil, ?_, ?_, le_refl 1⟩
  · intro k hk
    rw [hkeys] at hk
    exact absurd hk (List.not_mem_nil k)
  · rw [hkeys]
    exact List.nodup_nil

/-- C4: over every interleaving of add_area, remove_area, clear and sync
passes from a fresh instance, the handles returned by add_area are exactly
the consecutive integers from 1 — strictly increasing, never reused even
across removals and clears, and never 0. -/
theorem handle_monotonicity {SID : Type} [DecidableEq SID]
    (m : Nat) (ops : List (Op SID)) (st : Stgi SID) (hs : List Nat)
    (hrun : run (Stgi.init m) ops = some (st, hs)) :
    hs = List.range' 1 hs.length ∧ List.Pairwise (· < ·) hs ∧ hs.Nodup ∧
    ∀ h ∈ hs, h ≠ 0 := by
  have h1 := run_handles ops (Stgi.init m) st hs hrun
  have hinit : (Stgi.init m : Stgi SID).nextId = 1 := rfl
  rw [hinit] at h1
  refine ⟨h1.1, ?_, ?_, ?_⟩
  · rw [h1.1]
    exact List.pairwise_lt_range' 1 hs.length
  · rw [h1.1]
    exact List.nodup_range' 1 hs.length
  · intro h hm
    rw [h1.1] at hm
    rcases List.mem_range'.mp hm with ⟨i, _, rfl⟩
    omega

/-- Witness for C4 on a concrete run with an interleaved removal. -/
theorem handle_monotonicity_witness :
    [1, 2, 3] = List.range' 1 ([1, 2, 3] : List Nat).length ∧
    List.Pairwise (· < ·) ([1, 2, 3] : List Nat) ∧ ([1, 2, 3] : List Nat).Nodup ∧
    ∀ h ∈ ([1, 2, 3] : List Nat), h ≠ 0 :=
  handle_monotonicity 512 exOpsC4 exStC4 [1, 2, 3] (by decide)

/-- C2 (amended): between syncs the dirty set holds each handle at most once
(it stays strictly sorted, hence duplicate-free) for every operation
sequence; the removal queue, by contrast, may hold a handle several times
(see the counterexample) since remove_area appends unconditionally. -/
theorem dirty_once_amended {SID : Type} [DecidableEq SID]
    (m : Nat) (ops : List (Op SID)) (st : Stgi SID) (hs : List Nat)
    (hrun : run (Stgi.init m) ops = some (st, hs)) :
    List.Pairwise (· < ·) st.dirtyAreas ∧ st.dirtyAreas.Nodup := by
  have hi := run_inv ops (Stgi.init m) st hs hrun (inv_init m)
  exact ⟨hi.1, hi.1.imp (fun hlt => Nat.ne_of_lt hlt)⟩

/-- Witness for C2 (amended) on a run that leaves two handles dirty. -/
theorem dirty_once_amended_witness :
    List.Pairwise (· < ·) exStC4.dirtyAreas ∧ exStC4.dirtyAreas.Nodup :=
  dirty_once_amended 512 exOpsC4 exStC4 [1, 2, 3] (by decide)

/-- C2 counterexample: two remove_area calls with the same handle leave that
handle twice in the removal queue — the claim's at-most-once property fails
for the removal queue. -/
theorem dirty_once_counterexample :
    (run (Stgi.init 512 : Stgi Nat) exOpsC2).map (fun p => p.1.areasToRemove) =
      some [1, 1] ∧ ¬ ([1, 1] : List Nat).Nodup := by
  constructor
  · decide
  · decide

theorem run_cons_inv {SID : Type} [DecidableEq SID] (s s' : Stgi SID) (op : Op SID)
    (rest : List (Op SID)) (hs : List Nat)
    (hr : run s (op :: rest) = some (s', hs)) :
    ∃ s1 em hs1, step s op = some (s1, em) ∧ run s1 rest = some (s', hs1) ∧
      hs = em.toList ++ hs1 := by
  simp only [run] at hr
  rcases hstep : step s op with _ | p
  · rw [hstep] at hr; exact Option.noConfusion hr
  · obtain ⟨s1, em⟩ := p
    rw [hstep] at hr
    rcases hrun : run s1 rest with _ | q
    · simp only [hrun] at hr
      exact Option.noConfusion hr
    · obtain ⟨s2, hs2⟩ := q
      simp only [hrun, Option.some.injEq, Prod.mk.injEq] at hr
      refine ⟨s1, em, hs2, rfl, ?_, hr.2.symm⟩
      rw [hrun, hr.1]

theorem absent_noop {SID : Type} [DecidableEq SID] (s : Stgi SID) (h : Nat)
    (f : UiArea SID → UiArea SID) (habs : h ∉ keysOf s) :
    area s h = none ∧ areaMutF s h f = (false, s) := by
  constructor
  · unfold area
    rw [(findInMaps_none_iff s.uiAreas h).mpr habs]
    rfl
  · unfold areaMutF
    rw [(updateInMaps_none_iff s.uiAreas h _).mpr habs]

/-- C10: a handle never issued by add_area is absent, so area and area_mut
return None and leave the state unchanged (in particular the dirty set);
and once an issued handle has been removed and a sync pass has completed,
every later state gives the same None/no-op behaviour. -/
theorem missing_handle_noop {SID : Type} [DecidableEq SID]
    (m : Nat) (ops ops1 ops2 : List (Op SID)) (st s1 s2 : Stgi SID)
    (hs hs1 hs2 : List Nat) (h : Nat) (f : UiArea SID → UiArea SID)
    (received : List Nat) :
    (run (Stgi.init m) ops = some (st, hs) → h ∉ hs →
      area st h = none ∧ areaMutF st h f = (false, st)) ∧
    (run (Stgi.init m) ops1 = some (s1, hs1) → h ∈ hs1 →
      run s1 (Op.removeArea h :: Op.frame received :: ops2) = some (s2, hs2) →
      area s2 h = none ∧ areaMutF s2 h f = (false, s2)) := by
  constructor
  · intro hrun hnot
    have hi := run_inv ops (Stgi.init m) st hs hrun (inv_init m)
    have h1 := run_handles ops (Stgi.init m) st hs hrun
    have hinit : (Stgi.init m : Stgi SID).nextId = 1 := rfl
    rw [hinit] at h1
    have habs : h ∉ keysOf st := by
      intro hc
      have hb := hi.2.1 h hc
      apply hnot
      rw [h1.1]
      refine List.mem_range'.mpr ⟨h - 1, ?_, ?_⟩
      · omega
      · omega
    exact absent_noop st h f habs
  · intro hrun1 hmem hrun2
    have hi1 := run_inv ops1 (Stgi.init m) s1 hs1 hrun1 (inv_init m)
    have h1 := run_handles ops1 (Stgi.init m) s1 hs1 hrun1
    have hinit : (Stgi.init m : Stgi SID).nextId = 1 := rfl
    rw [hinit] at h1
    have hlt1 : h < s1.nextId := by
      rw [h1.1] at hmem
      rcases List.mem_range'.mp hmem with ⟨i, hi', rfl⟩
      omega
    rcases run_cons_inv s1 s2 (Op.removeArea h) (Op.frame received :: ops2) hs2 hrun2
      with ⟨sa, ema, hsa, hstepa, hruna, _⟩
    have hsaeq : sa = removeArea s1 h ∧ ema = none := by
      simp only [step, Option.some.injEq, Prod.mk.injEq] at hstepa
      exact ⟨hstepa.1.symm, hstepa.2.symm⟩
    obtain ⟨rfl, rfl⟩ := hsaeq
    rcases run_cons_inv _ s2 (Op.frame received) ops2 hsa hruna
      with ⟨sb, emb, hsb, hstepb, hrunb, _⟩
    have hib : Inv sb := step_inv _ sb _ emb hstepb
      (step_inv s1 _ (Op.removeArea h) none (by simp [step]) hi1)
    have hsync : syncFrame (removeArea s1 h) received = some sb := by
      simp only [step] at hstepb
      rcases hsf : syncFrame (removeArea s1 h) received with _ | sx
      · rw [hsf] at hstepb; exact Option.noConfusion hstepb
      · rw [hsf] at hstepb
        simp only [Option.map_some', Option.some.injEq, Prod.mk.injEq] at hstepb
        rw [hstepb.1]
    have hia : Inv (removeArea s1 h) := step_inv s1 _ (Op.removeArea h) none (by simp [step]) hi1
    have hnd : (keysOf (removeArea s1 h)).Nodup := hia.2.2.1
    have hmemq : h ∈ (removeArea s1 h).areasToRemove := by
      simp [removeArea]
    have habsb : h ∉ keysOf sb := syncFrame_absent (removeArea s1 h) sb h received hnd hmemq hsync
    have hltb : h < sb.nextId := by
      have e1 : (removeArea s1 h).nextId = s1.nextId := rfl
      have e2 := (syncFrame_spec (removeArea s1 h) sb received hsync).1
      omega
    have habs2 : h ∉ keysOf s2 := run_absent ops2 sb s2 hsb h hrunb hib hltb habsb
    exact absent_noop s2 h f habs2

/-- Witness for C10: a never-issued handle on a live state, and an issued
handle after removal and a completed sync, both at concrete inputs. -/
theorem missing_handle_noop_witness :
    (area exStC4 7 = none ∧ areaMutF exStC4 7 (fun a => a) = (false, exStC4)) ∧
    (area exS2C10 1 = none ∧ areaMutF exS2C10 1 (fun a => a) = (false, exS2C10)) :=
  ⟨(missing_handle_noop 512 exOpsC4 [] [] exStC4 (Stgi.init 512) (Stgi.init 512)
      [1, 2, 3] [] [] 7 (fun a => a) []).1 (by decide) (by decide),
   (missing_handle_noop 512 [] [Op.addArea (exArea ZOrder.first)] [] (Stgi.init 512)
      exS1C10 exS2C10 [] [1] [] 1 (fun a => a) []).2 (by decide) (by decide) (by decide)⟩

/-! ## Claim C5: duplicate sprite registration -/

/-- C5 (amended): duplicate registration is fatal only in the builder path —
add_inanimate_sprite asserts the id is not yet present; the legacy
add_sprite performs no duplicate check, and any successful call (duplicate
or not) simply leaves the given image stored under the id, silently
replacing an earlier sprite. -/
theorem duplicate_sprite_amended {S SID : Type} [DecidableEq S] [DecidableEq SID] :
    (∀ (b : StgiBuilder S) (sid : S) (img : Image), sid ∈ b.presentIds →
        addInanimateSprite b sid img = none) ∧
    (∀ (fuel : Nat) (s s' : Stgi SID) (sid : SID) (img : Image),
        addSprite fuel s sid img = some s' →
        (alLookup s'.storedSprites sid).map StoredSprite.image = some img) := by
  constructor
  · intro b sid img hmem
    simp [addInanimateSprite, hmem]
  · intro fuel
    induction fuel with
    | zero => intro s s' sid img hr; simp [addSprite] at hr
    | succ n ih =>
      intro s s' sid img hr
      unfold addSprite at hr
      by_cases hdim : img.width = 0 ∨ img.height = 0
      · rw [if_pos hdim] at hr
        exact Option.noConfusion hr
      · rw [if_neg hdim] at hr
        dsimp only at hr
        rcases hlast : s.atlases.getLast? with _ | last
        · simp only [hlast] at hr
          rcases hgrow : growLastAtlasOrCreateNew s with _ | sg
          · simp only [hgrow] at hr
            exact Option.noConfusion hr
          · simp only [hgrow] at hr
            exact ih sg s' sid img hr
        · simp only [hlast] at hr
          rcases halloc : last.allocate (img.width + 2) (img.height + 2) with _ | ra
          · simp only [halloc] at hr
            rcases hgrow : growLastAtlasOrCreateNew s with _ | sg
            · simp only [hgrow] at hr
              exact Option.noConfusion hr
            · simp only [hgrow] at hr
              exact ih sg s' sid img hr
          · obtain ⟨rect, last'⟩ := ra
            simp only [halloc] at hr
            rcases hset : setAt s.atlases (s.atlases.length - 1) last' with _ | atlases'
            · simp only [hset] at hr
              exact Option.noConfusion hr
            · simp only [hset] at hr
              obtain rfl := Option.some.inj hr
              show (alLookup (alInsert s.storedSprites sid _) sid).map StoredSprite.image
                = some img
              rw [alLookup_alInsert_self]
              rfl

/-- C5 counterexample: two legacy add_sprite calls under the same id both
succeed (no abort), and the stored record afterwards carries the second
image — the earlier sprite was silently replaced, refuting fatality in the
legacy path. -/
theorem duplicate_sprite_counterexample :
    addSprite 2 exMidC5 7 exImage2 = some exAfterDupC5 ∧
    (alLookup exAfterDupC5.storedSprites 7).map StoredSprite.image = some exImage2 ∧
    exImage1 ≠ exImage2 := by
  refine ⟨by decide, by decide, by decide⟩

/-- Witness for C5 (amended): the builder rejects a present id; a concrete
successful legacy duplicate call stores the new image. -/
theorem duplicate_sprite_amended_witness :
    addInanimateSprite exBuilder 3 exImage2 = none ∧
    (alLookup exAfterDupC5.storedSprites 7).map StoredSprite.image = some exImage2 :=
  ⟨(@duplicate_sprite_amended Nat Nat _ _).1 exBuilder 3 exImage2 (by decide),
   (@duplicate_sprite_amended Nat Nat _ _).2 2 exMidC5 exAfterDupC5 7 exImage2 (by decide)⟩

/-! ## Claim C9: atlas layer growth -/

theorem relocateSprites_spec {SID : Type} [DecidableEq SID] :
    ∀ (l : List (SID × StoredSprite)) (lastIdx : Nat) (alloc : ShelfAllocator)
      (l' : List (SID × StoredSprite)) (alloc' : ShelfAllocator),
      relocateSprites l lastIdx alloc = some (l', alloc') →
      l'.map Prod.fst = l.map Prod.fst ∧ alloc'.size = alloc.size ∧
      (∀ sid sps', alLookup l' sid = some sps' →
        ∃ sps, alLookup l sid = some sps ∧ sps'.image = sps.image ∧
          sps'.width = sps.width ∧ sps'.height = sps.height ∧
          sps'.atlasIndex = sps.atlasIndex) := by
  intro l
  induction l with
  | nil =>
    intro lastIdx alloc l' alloc' hr
    simp only [relocateSprites, Option.some.injEq, Prod.mk.injEq] at hr
    obtain ⟨hl', ha'⟩ := hr
    subst hl'
    subst ha'
    refine ⟨rfl, rfl, ?_⟩
    intro sid sps' hl
    simp [alLookup] at hl
  | cons p t ih =>
    intro lastIdx alloc l' alloc' hr
    obtain ⟨sid0, sps0⟩ := p
    by_cases hidx : sps0.atlasIndex = lastIdx
    · simp only [relocateSprites, if_pos hidx] at hr
      rcases halloc : alloc.allocate (sps0.width + 2) (sps0.height + 2) with _ | ra
      · rw [halloc] at hr
        exact Option.noConfusion hr
      · obtain ⟨rect, a1⟩ := ra
        rw [halloc] at hr
        rcases Option.map_eq_some'.mp hr with ⟨q, hq, hfq⟩
        obtain ⟨t', a2⟩ := q
        simp only [Prod.mk.injEq] at hfq
        obtain ⟨ht', ha'⟩ := hfq
        obtain ⟨hkeys, hsize, hlook⟩ := ih lastIdx a1 t' a2 hq
        subst ht'
        subst ha'
        refine ⟨by simp [hkeys], by rw [hsize, allocate_size alloc a1 _ _ rect halloc], ?_⟩
        intro sid sps' hl
        by_cases hsid : sid = sid0
        · subst hsid
          simp only [alLookup, if_pos rfl] at hl ⊢
          obtain rfl := Option.some.inj hl
          exact ⟨sps0, rfl, rfl, rfl, rfl, hidx.symm ▸ rfl⟩
        · simp only [alLookup, if_neg hsid] at hl ⊢
          exact hlook sid sps' hl
    · simp only [relocateSprites, if_neg hidx] at hr
      rcases Option.map_eq_some'.mp hr with ⟨q, hq, hfq⟩
      obtain ⟨t', a2⟩ := q
      simp only [Prod.mk.injEq] at hfq
      obtain ⟨ht', ha'⟩ := hfq
      obtain ⟨hkeys, hsize, hlook⟩ := ih lastIdx alloc t' a2 hq
      subst ht'
      subst ha'
      refine ⟨by simp [hkeys], hsize, ?_⟩
      intro sid sps' hl
      by_cases hsid : sid = sid0
      · subst hsid
        simp only [alLookup, if_pos rfl] at hl ⊢
        obtain rfl := Option.some.inj hl
        exact ⟨_, rfl, rfl, rfl, rfl, rfl⟩
      · simp only [alLookup, if_neg hsid] at hl ⊢
        exact hlook sid sps' hl

theorem getLast?_set_last {α : Type} (l : List α) (x : α) (hne : l ≠ []) :
    (l.set (l.length - 1) x).getLast? = some x := by
  have hlen : 0 < l.length := List.length_pos.mpr hne
  rw [List.getLast?_eq_getElem?, List.length_set, List.getElem?_set]
  rw [if_pos rfl, if_pos (by omega)]

theorem builderGrowAndAlloc_bounds :
    ∀ (fuel : Nat) (a a' : ShelfAllocator) (w h maxTex : Nat) (r : Rect),
      min maxTex 65536 + 1 - a.size ≤ fuel →
      builderGrowAndAlloc a w h maxTex = some (r, a') →
      a.size < a'.size ∧ a'.size ≤ maxTex ∧ a'.size ≤ 65536 := by
  intro fuel
  induction fuel with
  | zero =>
    intro a a' w h maxTex r hf hb
    unfold builderGrowAndAlloc at hb
    have hle1 : min (min (a.size * 2) maxTex) 65536 ≤ maxTex :=
      le_trans (Nat.min_le_left _ _) (Nat.min_le_right _ _)
    have hle2 : min (min (a.size * 2) maxTex) 65536 ≤ 65536 := Nat.min_le_right _ _
    have hlem : min (min (a.size * 2) maxTex) 65536 ≤ min maxTex 65536 :=
      Nat.le_min.mpr ⟨hle1, hle2⟩
    rw [dif_neg (by omega)] at hb
    exact Option.noConfusion hb
  | succ n ih =>
    intro a a' w h maxTex r hf hb
    unfold builderGrowAndAlloc at hb
    have hle1 : min (min (a.size * 2) maxTex) 65536 ≤ maxTex :=
      le_trans (Nat.min_le_left _ _) (Nat.min_le_right _ _)
    have hle2 : min (min (a.size * 2) maxTex) 65536 ≤ 65536 := Nat.min_le_right _ _
    by_cases hgt : a.size < min (min (a.size * 2) maxTex) 65536
    · rw [dif_pos hgt] at hb
      rcases halloc : (a.grow (min (min (a.size * 2) maxTex) 65536)).allocate w h with _ | ra
      · simp only [halloc] at hb
        have hmeas : min maxTex 65536 + 1 -
            (a.grow (min (min (a.size * 2) maxTex) 65536)).size ≤ n := by
          have hlem : min (min (a.size * 2) maxTex) 65536 ≤ min maxTex 65536 :=
            Nat.le_min.mpr ⟨hle1, hle2⟩
          simp only [ShelfAllocator.grow]
          omega
        have hrec := ih _ a' w h maxTex r hmeas hb
        have hsz : (a.grow (min (min (a.size * 2) maxTex) 65536)).size =
            min (min (a.size * 2) maxTex) 65536 := rfl
        rw [hsz] at hrec
        exact ⟨lt_trans hgt hrec.1, hrec.2.1, hrec.2.2⟩
      · obtain ⟨r0, a2⟩ := ra
        simp only [halloc, Option.some.injEq, Prod.mk.injEq] at hb
        obtain ⟨_, rfl⟩ := hb
        have hsz := allocate_size _ a2 w h r0 halloc
        have hsz2 : (a.grow (min (min (a.size * 2) maxTex) 65536)).size =
            min (min (a.size * 2) maxTex) 65536 := rfl
        rw [hsz2] at hsz
        rw [hsz]
        exact ⟨hgt, hle1, hle2⟩
    · rw [dif_neg hgt] at hb
      exact Option.noConfusion hb

/-- C9 (amended): in the legacy incremental path a layer is grown only when
its doubled side stays within the device maximum; growth then replaces the
layer with a from-scratch rebuilt allocator of exactly double the side and
re-places every sprite stored in that layer (ids, dimensions, images and
layer assignment all preserved); when doubling would exceed the maximum no
existing layer is grown — a fresh layer is appended and all existing layers
are untouched. The builder's create_atlas growth loop instead grows the
layer in place to min(2·side, device maximum, 65536): bounded by both caps
but, when the device maximum intervenes, not a doubling (see the
counterexample). -/
theorem atlas_growth_amended {SID : Type} [DecidableEq SID] :
    (∀ (s s' : Stgi SID) (last : ShelfAllocator), s.atlases.getLast? = some last →
        last.size * 2 ≤ s.maxTextureSize →
        growLastAtlasOrCreateNew s = some s' →
        s'.atlases.length = s.atlases.length ∧
        (∃ a', s'.atlases.getLast? = some a' ∧ a'.size = last.size * 2) ∧
        s'.storedSprites.map Prod.fst = s.storedSprites.map Prod.fst ∧
        (∀ sid sps', alLookup s'.storedSprites sid = some sps' →
          ∃ sps, alLookup s.storedSprites sid = some sps ∧ sps'.image = sps.image ∧
            sps'.width = sps.width ∧ sps'.height = sps.height ∧
            sps'.atlasIndex = sps.atlasIndex)) ∧
    (∀ (s s' : Stgi SID) (last : ShelfAllocator), s.atlases.getLast? = some last →
        s.maxTextureSize < last.size * 2 →
        growLastAtlasOrCreateNew s = some s' →
        s'.atlases.length = s.atlases.length + 1 ∧
        ∀ i, i < s.atlases.length → s'.atlases[i]? = s.atlases[i]?) ∧
    (∀ (a a' : ShelfAllocator) (w h maxTex : Nat) (r : Rect),
        builderGrowAndAlloc a w h maxTex = some (r, a') →
        a.size < a'.size ∧ a'.size ≤ maxTex ∧ a'.size ≤ 65536) := by
  refine ⟨?_, ?_, ?_⟩
  · intro s s' last hlast hfit hgrow
    unfold growLastAtlasOrCreateNew at hgrow
    simp only [hlast] at hgrow
    have hmin : min (last.size * 2) s.maxTextureSize = last.size * 2 := Nat.min_eq_left hfit
    rw [hmin, if_pos rfl] at hgrow
    rcases hrel : relocateSprites s.storedSprites (s.atlases.length - 1)
        (ShelfAllocator.new (last.size * 2)) with _ | p
    · simp only [hrel] at hgrow
      exact Option.noConfusion hgrow
    · obtain ⟨sprites', alloc'⟩ := p
      simp only [hrel] at hgrow
      have hne : s.atlases ≠ [] := by
        intro hc
        rw [hc] at hlast
        exact Option.noConfusion hlast
      have hlt : s.atlases.length - 1 < s.atlases.length := by
        have := List.length_pos.mpr hne
        omega
      rw [setAt_some s.atlases (s.atlases.length - 1) alloc' hlt] at hgrow
      obtain rfl := Option.some.inj hgrow
      obtain ⟨hkeys, hsize, hlook⟩ :=
        relocateSprites_spec s.storedSprites (s.atlases.length - 1)
          (ShelfAllocator.new (last.size * 2)) sprites' alloc' hrel
      refine ⟨by simp, ⟨alloc', ?_, ?_⟩, hkeys, hlook⟩
      · exact getLast?_set_last s.atlases alloc' hne
      · rw [hsize]
        rfl
  · intro s s' last hlast hbig hgrow
    unfold growLastAtlasOrCreateNew at hgrow
    simp only [hlast] at hgrow
    have hne2 : min (last.size * 2) s.maxTextureSize ≠ last.size * 2 := by
      have heq : min (last.size * 2) s.maxTextureSize = s.maxTextureSize :=
        Nat.min_eq_right (le_of_lt hbig)
      omega
    rw [if_neg hne2] at hgrow
    obtain rfl := Option.some.inj hgrow
    constructor
    · simp [createNewAtlas]
    · intro i hi
      simp [createNewAtlas, List.getElem?_append, hi]
  · intro a a' w h maxTex r hb
    exact builderGrowAndAlloc_bounds (min maxTex 65536 + 1 - a.size) a a' w h maxTex r
      (le_refl _) hb

/-- C9 counterexample: with device maximum 200, the builder grows a 128-sided
layer to side 200 — the layer is grown although its doubled size 256
exceeds the device maximum, and the new side is not double the old one —
refuting both the strict-doubling and the never-grown-past-max parts of the
claim for the cited builder path. -/
theorem atlas_growth_counterexample :
    builderGrowAndAlloc (ShelfAllocator.new 128) 150 150 200 =
      some ({ minX := 0, minY := 0, maxX := 150, maxY := 150 },
            { size := 200, shelfX := 150, shelfY := 0, shelfH := 150 }) ∧
    (200 : Nat) ≠ 128 * 2 ∧ (200 : Nat) < 128 * 2 := by
  refine ⟨?_, by decide, by decide⟩
  unfold builderGrowAndAlloc
  norm_num [ShelfAllocator.new, ShelfAllocator.grow, ShelfAllocator.allocate]

/-- Witness for C9 (amended) at concrete inputs: a 512-sided layer under a
2048 maximum doubles to 1024 with its sprite re-placed; under a 600 maximum
it is left untouched and a new layer is appended; the builder grow loop at
the capped input succeeds within both bounds. -/
theorem atlas_growth_amended_witness :
    (exGrown.atlases.length = exStateGrow.atlases.length ∧
      (∃ a', exGrown.atlases.getLast? = some a' ∧
        a'.size = ({ size := 512, shelfX := 12, shelfY := 0, shelfH := 12 } :
          ShelfAllocator).size * 2) ∧
      exGrown.storedSprites.map Prod.fst = exStateGrow.storedSprites.map Prod.fst ∧
      (∀ sid sps', alLookup exGrown.storedSprites sid = some sps' →
        ∃ sps, alLookup exStateGrow.storedSprites sid = some sps ∧
          sps'.image = sps.image ∧ sps'.width = sps.width ∧ sps'.height = sps.height ∧
          sps'.atlasIndex = sps.atlasIndex)) ∧
    (exGrownCap.atlases.length = exStateGrowCap.atlases.length + 1 ∧
      ∀ i, i < exStateGrowCap.atlases.length →
        exGrownCap.atlases[i]? = exStateGrowCap.atlases[i]?) ∧
    ((ShelfAllocator.new 128).size <
        ({ size := 200, shelfX := 150, shelfY := 0, shelfH := 150 } : ShelfAllocator).size ∧
      ({ size := 200, shelfX := 150, shelfY := 0, shelfH := 150 } : ShelfAllocator).size ≤ 200 ∧
      ({ size := 200, shelfX := 150, shelfY := 0, shelfH := 150 } : ShelfAllocator).size ≤ 65536) :=
  ⟨(@atlas_growth_amended Nat _).1 exStateGrow exGrown
      { size := 512, shelfX := 12, shelfY := 0, shelfH := 12 } (by decide) (by decide)
      (by decide),
   (@atlas_growth_amended Nat _).2.1 exStateGrowCap exGrownCap
      { size := 512, shelfX := 12, shelfY := 0, shelfH := 12 } (by decide) (by decide)
      (by decide),
   (@atlas_growth_amended Nat _).2.2 (ShelfAllocator.new 128)
      { size := 200, shelfX := 150, shelfY := 0, shelfH := 150 } 150 150 200
      { minX := 0, minY := 0, maxX := 150, maxY := 150 }
      (by
        unfold builderGrowAndAlloc
        norm_num [ShelfAllocator.new, ShelfAllocator.grow, ShelfAllocator.allocate])⟩

/-! ## Claim C1: swap-remove correctness of queued removals -/

theorem getElem?_set_self_of_lt {α : Type} (l : List α) (a : α) (i : Nat)
    (h : i < l.length) : (l.set i a)[i]? = some a := by
  rw [List.getElem?_set, if_pos rfl, if_pos h]

/-- C1 (amended): a queued removal is swap-remove-correct only on states where
the removed area's recorded offset, current z-level and sprite agree with the
buffer that actually holds it. Under those local coherence conditions —
automatic right after a sync, but violable by a z mutation between syncs,
since the removal path addresses the buffer through the area's CURRENT z —
removing a non-last, non-only occupant at slot i of a buffer with N
occupants succeeds, the previously-last occupant's quad moves to slot i, its
recorded buffer_offset in the current-z map is patched to slot i, and the
occupant count drops to N−1. The original claim's "any reachable state" is
refuted by the counterexample. -/
theorem swap_remove_correct_amended {SID : Type} [DecidableEq SID]
    (s : Stgi SID) (h lastH i : Nat) (ia lastIA : InternalUiArea SID)
    (maps1 : List (List (Nat × InternalUiArea SID))) (sps : StoredSprite)
    (vrow : List (Option VertexBuffer)) (buffer : VertexBuffer)
    (row1 : List (Nat × InternalUiArea SID))
    (hfind : removeFromMaps s.uiAreas h = some (ia, maps1))
    (hoff : ia.bufferOffset = some (quadBytes * i))
    (hsps : alLookup s.storedSprites ia.area.sprite = some sps)
    (hvrow : s.vertexBuffers[ia.area.z.toUsize]? = some vrow)
    (hb : vrow[sps.atlasIndex]? = some (some buffer))
    (hlen : buffer.staging.length = buffer.order.length)
    (hN : 1 < buffer.order.length)
    (hi : i < buffer.order.length - 1)
    (hlast : buffer.order[buffer.order.length - 1]? = some lastH)
    (hrow1 : maps1[ia.area.z.toUsize]? = some row1)
    (hlastIn : alLookup row1 lastH = some lastIA) :
    ∃ (s' : Stgi SID) (buffer' : VertexBuffer) (row2 : List (Nat × InternalUiArea SID)),
      removeOne s h = some s' ∧
      bufAt s' ia.area.z.toUsize sps.atlasIndex = some buffer' ∧
      buffer'.order.length = buffer.order.length - 1 ∧
      buffer'.order[i]? = some lastH ∧
      buffer'.staging[i]? = buffer.staging[buffer.order.length - 1]? ∧
      s'.uiAreas[ia.area.z.toUsize]? = some row2 ∧
      alLookup row2 lastH = some { lastIA with bufferOffset := some (quadBytes * i) } := by
  have hqb : 0 < quadBytes := by decide
  have hidxeq : quadBytes * i / quadBytes = i := Nat.mul_div_cancel_left i hqb
  have horderlast : buffer.order.getLast? = some lastH := by
    rw [List.getLast?_eq_getElem?]
    exact hlast
  rcases hqlast : buffer.staging[buffer.order.length - 1]? with _ | qlast
  · exfalso
    have hle := List.getElem?_eq_none_iff.mp hqlast
    omega
  have hstaglast : buffer.staging.getLast? = some qlast := by
    rw [List.getLast?_eq_getElem?, hlen]
    exact hqlast
  have hswo : swapRemove buffer.order i = some ((buffer.order.set i lastH).dropLast) :=
    swapRemove_eq buffer.order i lastH horderlast (by omega)
  have hsws : swapRemove buffer.staging i =
      some ((buffer.staging.set i qlast).dropLast) :=
    swapRemove_eq buffer.staging i qlast hstaglast (by omega)
  have hsti : ((buffer.staging.set i qlast).dropLast)[i]? = some qlast := by
    rw [List.getElem?_dropLast, List.length_set, if_pos (by omega)]
    exact getElem?_set_self_of_lt buffer.staging qlast i (by omega)
  have hori : ((buffer.order.set i lastH).dropLast)[i]? = some lastH := by
    rw [List.getElem?_dropLast, List.length_set, if_pos (by omega)]
    exact getElem?_set_self_of_lt buffer.order lastH i (by omega)
  obtain ⟨hzvlt, _⟩ := List.getElem?_eq_some_iff.mp hvrow
  obtain ⟨hailt, _⟩ := List.getElem?_eq_some_iff.mp hb
  obtain ⟨hzilt, _⟩ := List.getElem?_eq_some_iff.mp hrow1
  obtain ⟨row2, hupd2, hlook2⟩ := alUpdate_of_lookup row1 lastH lastIA
    (fun x => { x with bufferOffset := some (quadBytes * i) }) hlastIn
  have hupdAt : updateAtMap maps1 ia.area.z.toUsize lastH
      (fun x => { x with bufferOffset := some (quadBytes * i) }) =
      some (maps1.set ia.area.z.toUsize row2) := by
    unfold updateAtMap
    simp only [hrow1, hupd2, setAt_some maps1 ia.area.z.toUsize row2 hzilt]
  refine ⟨{ s with
            uiAreas := maps1.set ia.area.z.toUsize row2
            vertexBuffers := s.vertexBuffers.set ia.area.z.toUsize
              (vrow.set sps.atlasIndex (some { buffer with
                 order := (buffer.order.set i lastH).dropLast
                 staging := (buffer.staging.set i qlast).dropLast
                 size := buffer.size - quadBytes })) },
          { buffer with
            order := (buffer.order.set i lastH).dropLast
            staging := (buffer.staging.set i qlast).dropLast
            size := buffer.size - quadBytes },
          row2, ?_, ?_, ?_, ?_, ?_, ?_, ?_⟩
  · unfold removeOne
    simp only [hfind, hoff, hsps, hvrow, hb, hidxeq]
    rw [if_pos hN, if_pos (show i ≠ buffer.order.length - 1 by omega)]
    simp only [hswo, hsws, hsti, hori, hupdAt,
      setAt_some vrow sps.atlasIndex _ hailt,
      setAt_some s.vertexBuffers ia.area.z.toUsize _ hzvlt]
  · simp only [bufAt, getElem?_set_self_of_lt s.vertexBuffers _ ia.area.z.toUsize hzvlt,
      getElem?_set_self_of_lt vrow _ sps.atlasIndex hailt]
  · simp
  · exact hori
  · exact hsti
  · exact getElem?_set_self_of_lt maps1 row2 ia.area.z.toUsize hzilt
  · exact hlook2

/-- C1 counterexample: a reachable state refuting the unrestricted claim.
Four areas (1,2 at z First; 3,4 at z Second) are synced; then area 1's z is
mutated to Second and area 1 is removed before the next sync. During that
sync the removal addresses the buffer through area 1's CURRENT z (Second),
so First's buffer — where area 1 actually resides at slot 0, not last of
two — keeps both occupants (its order list is still [1, 2], count 2 not 1),
while Second's buffer loses an unrelated occupant instead (order [4]),
even though handle 1 is gone from the area maps. -/
theorem swap_remove_correct_counterexample :
    (run (Stgi.init 512 : Stgi Nat) exOpsC1).map
        (fun p => ((bufAt p.1 0 0).map VertexBuffer.order,
                   (bufAt p.1 1 0).map VertexBuffer.order,
                   area p.1 1)) =
      some (some [1, 2], some [4], none) := by
  decide

/-- Witness for C1 (amended): on a coherent two-occupant state (handles 1 and
2 at slots 0 and 80 of the z-First buffer), removing handle 1 moves handle
2's quad to slot 0, patches its recorded offset to 0, and shrinks the
buffer to one occupant. -/
theorem swap_remove_correct_amended_witness :
    ∃ (s' : Stgi Nat) (buffer' : VertexBuffer) (row2 : List (Nat × InternalUiArea Nat)),
      removeOne exStateC1 1 = some s' ∧
      bufAt s' (exIA (some 0)).area.z.toUsize exSprite.atlasIndex = some buffer' ∧
      buffer'.order.length = exBuf.order.length - 1 ∧
      buffer'.order[0]? = some 2 ∧
      buffer'.staging[0]? = exBuf.staging[exBuf.order.length - 1]? ∧
      s'.uiAreas[(exIA (some 0)).area.z.toUsize]? = some row2 ∧
      alLookup row2 2 = some { exIA (some 80) with bufferOffset := some (quadBytes * 0) } :=
  swap_remove_correct_amended exStateC1 1 2 0 (exIA (some 0)) (exIA (some 80))
    [[(2, exIA (some 80))], [], [], []] exSprite [some exBuf] exBuf
    [(2, exIA (some 80))]
    (by decide) (by decide) (by decide) (by decide) (by decide) (by decide)
    (by decide) (by decide) (by decide) (by decide) (by decide)

/-! ## Claim C3: z-change eviction of a sole or last occupant -/

/-- C3 (code bug): moving an area whose z changed is NOT handled for every
prior resident position. When the area was the last (here: the only)
occupant of its old buffer, the eviction path (lines 1022-1040) reads
`old_buffer.order[index]` after the swap_remove — an out-of-bounds index
into the now-shorter (here: empty) order list — and panics, so the sync
pass diverges instead of relocating the area: the run of the scenario
returns none. -/
theorem zchange_last_eviction_panics :
    run (Stgi.init 512 : Stgi Nat) exOpsC3 = none := by
  decide

end STGI
